import Mathlib

/-!
Shallow embedding of the navigation tree builder, renderer, config merger and
error-driven pruner of the `docs` repository (`organize_modules.py`,
`build_api_docs.py`, `fix_mintlify_errors.py`), together with theorems
settling the frozen claims about this code.

Conventions:
* identifiers ("module paths", the `.mdx` file stems) are Lean `String`s;
* Python `dict`s whose key order matters are association lists;
* Python's in-place mutation is modelled by explicit state passing.
-/

/-- Module-name → display-name table (`MODULE_NAME_DISPLAY` in
`organize_modules.py`; the table in `build_api_docs.py` is identical). -/
def MODULE_NAME_DISPLAY : List (String × String) :=
  [("agents", "Agents"),
   ("configs", "Configs"),
   ("datagen", "Data Generation"),
   ("datasets", "Datasets"),
   ("data_collector", "Data Collector"),
   ("embeddings", "Embeddings"),
   ("environments", "Environments"),
   ("interpreters", "Interpreters"),
   ("loaders", "Loaders"),
   ("memories", "Memory"),
   ("messages", "Messages"),
   ("models", "Models"),
   ("prompts", "Prompts"),
   ("responses", "Responses"),
   ("retrievers", "Retrievers"),
   ("runtime", "Runtime"),
   ("schemas", "Schemas"),
   ("societies", "Societies"),
   ("storages", "Storage"),
   ("tasks", "Tasks"),
   ("terminators", "Terminators"),
   ("toolkits", "Toolkits"),
   ("types", "Types"),
   ("utils", "Utilities"),
   ("verifiers", "Verifiers"),
   ("benchmarks", "Benchmarks"),
   ("bots", "Bots"),
   ("personas", "Personas"),
   ("extractors", "Extractors")]

/-- Top-level category order (`MODULE_ORDER` in `organize_modules.py`). -/
def MODULE_ORDER : List String :=
  ["camel", "agents", "configs", "datagen", "datasets", "embeddings", "models",
   "interpreters", "memories", "messages", "prompts", "responses", "retrievers",
   "societies", "storages", "tasks", "terminators", "toolkits", "types",
   "verifiers", "bots", "runtime", "utils", "environments", "extractors",
   "personas"]

/-- Top-level category order of `build_api_docs.py` (no `"camel"` entry). -/
def MODULE_ORDER_build : List String :=
  ["agents", "configs", "datagen", "datasets", "embeddings", "models",
   "interpreters", "memories", "messages", "prompts", "responses", "retrievers",
   "societies", "storages", "tasks", "terminators", "toolkits", "types",
   "verifiers", "bots", "runtime", "utils", "environments", "extractors",
   "personas"]

/-- Python's `str.title()` restricted to the module-name alphabet: a letter is
uppercased when the previous character is not a letter, lowercased otherwise. -/
def pyTitleAux : Bool → List Char → List Char
  | _, [] => []
  | prevAlpha, c :: cs =>
      (if c.isAlpha then (if prevAlpha then c.toLower else c.toUpper) else c)
        :: pyTitleAux c.isAlpha cs

/-- Python's `str.title()`. -/
def pyTitle (s : String) : String := String.mk (pyTitleAux false s.data)


/-- Python's `str.split(sep)` for a one-character separator, on the character
list: split at every occurrence, keeping empty pieces. -/
def pySplitAux (sep : Char) : List Char → List Char → List String
  | [], acc => [String.mk acc.reverse]
  | c :: cs, acc =>
      if c == sep then String.mk acc.reverse :: pySplitAux sep cs []
      else pySplitAux sep cs (c :: acc)

/-- Python's `str.split(sep)` for a one-character separator
(`"".split(sep) == [""]`, adjacent separators give empty pieces). -/
def pySplit (sep : Char) (s : String) : List String := pySplitAux sep s.data []

/-- Python's `str.startswith(pre)`: `pre`'s characters are a prefix of `s`'s. -/
def pyStartsWith (s pre : String) : Bool := pre.data.isPrefixOf s.data

/-- Python's `str.replace(old, new)` for one-character arguments. -/
def pyReplaceChar (old new : Char) (s : String) : String :=
  String.mk (s.data.map (fun c => if c == old then new else c))

/-- Code-point lexicographic comparison of character lists — the order Python
uses to compare and sort strings. -/
def strLeChars : List Char → List Char → Bool
  | [], _ => true
  | _ :: _, [] => false
  | c :: cs, d :: ds =>
      if c.toNat < d.toNat then true
      else if d.toNat < c.toNat then false
      else strLeChars cs ds

/-- Python's string `<=` (lexicographic by code point). -/
def strLe (a b : String) : Bool := strLeChars a.data b.data

/-- `strLe` as a relation, for the sorting lemmas. -/
def strLeRel (a b : String) : Prop := strLe a b = true

instance : DecidableRel strLeRel := fun a b =>
  inferInstanceAs (Decidable (strLe a b = true))

/-- Association-list lookup (first match), as a Python `dict` lookup. -/
def assocLookup (l : List (String × String)) (k : String) : Option String :=
  match l with
  | [] => none
  | (k', v) :: rest => if k' == k then some v else assocLookup rest k

/-- `get_module_display_name` from `organize_modules.py` / `build_api_docs.py`:
mapped display name, else snake_case converted to title case. -/
def get_module_display_name (module_name : String) : String :=
  match assocLookup MODULE_NAME_DISPLAY module_name with
  | some d => d
  | none => pyTitle (pyReplaceChar '_' ' ' module_name)

/-- The module tree of `build_module_tree`: each node has a `pages` list and a
`submodules` association (a Python `dict`, so ordered with unique keys). -/
inductive MTree : Type where
  | node : List String → List (String × MTree) → MTree


/-- The `pages` field of a tree node. -/
def MTree.pages : MTree → List String
  | .node ps _ => ps

/-- The `submodules` field of a tree node. -/
def MTree.children : MTree → List (String × MTree)
  | .node _ cs => cs

/-- `new_module_dict()`: a fresh node with no pages and no submodules. -/
def emptyNode : MTree := .node [] []

/-- Python `dict` lookup on the `submodules` association list. -/
def lookupChild : List (String × MTree) → String → Option MTree
  | [], _ => none
  | (k', t) :: rest, k => if k' == k then some t else lookupChild rest k

/-- Python `dict` assignment: replace the value at an existing key in place,
otherwise append the new key at the end (the `defaultdict` creation order). -/
def setChild : List (String × MTree) → String → MTree → List (String × MTree)
  | [], k, v => [(k, v)]
  | (k', t) :: rest, k, v =>
      if k' == k then (k', v) :: rest else (k', t) :: setChild rest k v

/-- The walk `for part in parts[1:-1]: current = current["submodules"][part]`
followed by the final page insertion of `build_module_tree`: navigate/create
nodes along `segs` (a missing child is created empty, `defaultdict` style) and
at the final node prepend the page when `dir` holds (the directory-page rule,
`parts[-1] == parts[-2]`), else append it. -/
def insertSegs : List String → String → Bool → MTree → MTree
  | [], ref, dir, .node ps cs =>
      .node (if dir then ref :: ps else ps ++ [ref]) cs
  | s :: rest, ref, dir, .node ps cs =>
      let child := (lookupChild cs s).getD emptyNode
      .node ps (setChild cs s (insertSegs rest ref dir child))

/-- One iteration of the `for file in mdx_files` loop of `build_module_tree`
(`organize_modules.py` lines 97-134; `build_api_docs.py` lines 536-573 are
verbatim identical): skip stems not starting with `"camel."`, handle the
single-segment case, otherwise walk `parts[1:-1]` and insert the reference
path, prepending when the last segment equals the one before it. -/
def addFile (t : MTree) (stem : String) : MTree :=
  if pyStartsWith stem "camel." then
    let parts := pySplit '.' stem
    let reference_path := "reference/" ++ stem
    if parts.length == 1 then
      match t with
      | .node ps cs => .node (ps ++ [reference_path]) cs
    else
      insertSegs ((parts.drop 1).dropLast) reference_path
        (parts.getLastD "" == parts.getD (parts.length - 2) "") t
  else t

/-- `build_module_tree`: fold the per-file insertion over the input stems. -/
def build_module_tree (stems : List String) : MTree :=
  stems.foldl addFile emptyNode

/-- Analysis helper (not from the source): what `addFile stem` does — `none`
when the stem is skipped, otherwise the node path, reference path and
directory-page flag of the insertion. -/
def storeSpec (stem : String) : Option (List String × String × Bool) :=
  if pyStartsWith stem "camel." then
    let parts := pySplit '.' stem
    let reference_path := "reference/" ++ stem
    if parts.length == 1 then some ([], reference_path, false)
    else some ((parts.drop 1).dropLast, reference_path,
               parts.getLastD "" == parts.getD (parts.length - 2) "")
  else none

/-- A navigation entry: a bare page reference or a named group
(`mint.json` navigation format). -/
inductive NavEntry : Type where
  | page : String → NavEntry
  | group : String → List NavEntry → NavEntry


/-- `pathlib.Path(p).stem`: the last `/`-component without its final suffix
(a leading dot or a trailing dot does not start a suffix). -/
def pyStem (p : String) : String :=
  let name := (pySplit '/' p).getLastD ""
  let parts := pySplit '.' name
  match parts with
  | [] => name
  | first :: rest =>
      if rest.isEmpty then name
      else if first == "" && rest.length == 1 then name
      else if rest.getLastD "" == "" then name
      else String.intercalate "." parts.dropLast

/-- `Path(p).stem.split('.')[-1]` from line 143 of `organize_modules.py`. -/
def stemLastSeg (p : String) : String :=
  (pySplit '.' (pyStem p)).getLastD ""

/-- Python `sorted` on strings: sort by the code-point lexicographic order.
The order is antisymmetric, so every correct sort (Python's stable sort, the
insertion sort used here) produces the same output. -/
def sortStr (l : List String) : List String := List.insertionSort strLeRel l

/-- Comparison of `submodules` items by key, as in `sorted(d.items())`. -/
def keyLe (a b : String × MTree) : Prop := strLeRel a.1 b.1

instance : DecidableRel keyLe := fun a b =>
  inferInstanceAs (Decidable (strLe a.1 b.1 = true))

/-- Python `sorted(d.items())` on the `submodules` dict: sort the pairs.
Keys are unique, so comparison never reaches the second component and every
sort by key produces the same output. -/
def sortedItems (cs : List (String × MTree)) : List (String × MTree) :=
  List.insertionSort keyLe cs

/-- Body of the `for module_name in MODULE_ORDER` loop of
`convert_tree_to_navigation` (`organize_modules.py` lines 147-187): skip
`"camel"`, look the category up, build the group pages (own pages sorted, then
each sorted submodule's nonempty pages extended into the same flat list — the
`len > 1` branch and its `else` are textually identical), and append the group
only when its page list is nonempty. -/
def convertStep (t : MTree) (nav : List NavEntry) (module_name : String) :
    List NavEntry :=
  if module_name == "camel" then nav
  else
    match lookupChild t.children module_name with
    | none => nav
    | some submodule =>
        let display_name := get_module_display_name module_name
        let pages0 := sortStr submodule.pages
        let pages :=
          if submodule.children.isEmpty then pages0
          else
            (sortedItems submodule.children).foldl
              (fun acc kd =>
                if kd.2.pages.isEmpty then acc
                else if kd.2.pages.length > 1 then acc ++ sortStr kd.2.pages
                else acc ++ sortStr kd.2.pages)
              pages0
        if pages.isEmpty then nav
        else nav ++ [NavEntry.group display_name (pages.map NavEntry.page)]

/-- `convert_tree_to_navigation` from `organize_modules.py` (lines 138-189):
the top-level `camel` page first when present among the root node's pages,
then one group per `MODULE_ORDER` category. -/
def convert_tree_to_navigation (module_tree : MTree) : List NavEntry :=
  let navigation : List NavEntry :=
    if (module_tree.pages.map stemLastSeg).contains "camel" then
      [NavEntry.page "reference/camel"]
    else []
  MODULE_ORDER.foldl (convertStep module_tree) navigation

/-- Loop body of `convert_tree_to_navigation` in `build_api_docs.py`
(lines 586-612): as `convertStep` but with no `"camel"` skip and a single
flattening branch. -/
def convertStep_build (t : MTree) (nav : List NavEntry) (module_name : String) :
    List NavEntry :=
  match lookupChild t.children module_name with
  | none => nav
  | some submodule =>
      let display_name := get_module_display_name module_name
      let pages0 := sortStr submodule.pages
      let pages :=
        if submodule.children.isEmpty then pages0
        else
          (sortedItems submodule.children).foldl
            (fun acc kd =>
              if kd.2.pages.isEmpty then acc else acc ++ sortStr kd.2.pages)
            pages0
      if pages.isEmpty then nav
      else nav ++ [NavEntry.group display_name (pages.map NavEntry.page)]

/-- `convert_tree_to_navigation` from `build_api_docs.py` (lines 577-614). -/
def convert_tree_to_navigation_build (module_tree : MTree) : List NavEntry :=
  let navigation : List NavEntry :=
    if (module_tree.pages.map stemLastSeg).contains "camel" then
      [NavEntry.page "reference/camel"]
    else []
  MODULE_ORDER_build.foldl (convertStep_build module_tree) navigation

/-- A navigation item as distinguished by `remove_from_groups` in
`fix_mintlify_errors.py`: a bare page path (a `str`) or a group (a `dict`
with an optional `"group"` name and optional `"pages"` / `"groups"` lists;
these three keys are the only ones the pruner reads or writes). -/
inductive NavItem : Type where
  | page : String → NavItem
  | group : Option String → Option (List NavItem) → Option (List NavItem) → NavItem

/-- Python truthiness of `item.get('pages')` / `item.get('groups')` combined
with the `len(...) > 0` check: a present, nonempty list. -/
def truthyList : Option (List NavItem) → Bool
  | some (_ :: _) => true
  | _ => false

/-- `remove_from_groups` from `fix_mintlify_errors.py` (lines 96-120).
Returns the new item list together with the `removed_pages` entries and the
printed log lines this call appends, in the order the Python code produces
them (pages recursion before groups recursion, then the remaining items). -/
def remove_from_groups (error_page_paths : List String) :
    List NavItem → List NavItem × List String × List String
  | [] => ([], [], [])
  | NavItem.page s :: rest =>
      let r := remove_from_groups error_page_paths rest
      if error_page_paths.contains s then
        (r.1, s :: r.2.1, ("  Removed page: " ++ s) :: r.2.2)
      else
        (NavItem.page s :: r.1, r.2.1, r.2.2)
  | NavItem.group name pages? groups? :: rest =>
      let pr : Option (List NavItem) × List String × List String :=
        match pages? with
        | none => (none, [], [])
        | some l =>
            let q := remove_from_groups error_page_paths l
            (some q.1, q.2.1, q.2.2)
      let gr : Option (List NavItem) × List String × List String :=
        match groups? with
        | none => (none, [], [])
        | some l =>
            let q := remove_from_groups error_page_paths l
            (some q.1, q.2.1, q.2.2)
      let r := remove_from_groups error_page_paths rest
      if truthyList pr.1 || truthyList gr.1 then
        (NavItem.group name pr.1 gr.1 :: r.1,
         pr.2.1 ++ gr.2.1 ++ r.2.1, pr.2.2 ++ gr.2.2 ++ r.2.2)
      else
        (r.1, pr.2.1 ++ gr.2.1 ++ r.2.1,
         pr.2.2 ++ gr.2.2 ++
           (("  Removed empty group: " ++ name.getD "Unknown") :: r.2.2))

/-- A JSON value; object fields are an ordered association list, matching the
serialized key order Python's `json` module preserves. -/
inductive Json : Type where
  | str : String → Json
  | num : Int → Json
  | bool : Bool → Json
  | null : Json
  | arr : List Json → Json
  | obj : List (String × Json) → Json

/-- Python `dict.get`: value of the first matching key. -/
def objGet : List (String × Json) → String → Option Json
  | [], _ => none
  | (k', v) :: rest, k => if k' == k then some v else objGet rest k

/-- Python `dict` assignment `d[k] = v`: replace the value of an existing key
in place (key order preserved), else append the new key at the end. -/
def objSet : List (String × Json) → String → Json → List (String × Json)
  | [], k, v => [(k, v)]
  | (k', v') :: rest, k, v =>
      if k' == k then (k', v) :: rest else (k', v') :: objSet rest k v

/-- Equality test used by the loop guards (`group.get("group") == "..."`). -/
def jsonIsStr : Option Json → String → Bool
  | some (Json.str s), s' => s == s'
  | _, _ => false

/-- The `for i, group in enumerate(mint_data.get("navigation", []))` loop of
`update_mint_json` in `organize_modules.py` (lines 201-204): set the `"pages"`
of the first group named `"API Reference"` and stop. `none` models the
`AttributeError` Python raises on a non-`dict` element. -/
def setAPIRefPages : List Json → Json → Option (List Json)
  | [], _ => some []
  | Json.obj gf :: rest, navigation =>
      if jsonIsStr (objGet gf "group") "API Reference" then
        some (Json.obj (objSet gf "pages" navigation) :: rest)
      else
        (setAPIRefPages rest navigation).map (Json.obj gf :: ·)
  | _ :: _, _ => none

/-- The pure core of `update_mint_json` from `organize_modules.py`
(lines 197-208): the document transformation between `json.load` and
`json.dump`. `none` models a raised exception (`.get` on a non-`dict`,
iteration reaching a non-`dict` group). A missing `"navigation"` key means
the loop runs over the `.get` default `[]` and the document is written back
unchanged. -/
def update_mint_json (mint_data navigation : Json) : Option Json :=
  match mint_data with
  | Json.obj fields =>
      match objGet fields "navigation" with
      | none => some (Json.obj fields)
      | some (Json.arr groups) =>
          (setAPIRefPages groups navigation).map (fun groups' =>
            Json.obj (objSet fields "navigation" (Json.arr groups')))
      | some _ => none
  | _ => none

/-- The `for tab in tabs` loop of `update_mint_json` in `build_api_docs.py`
(lines 627-630): set the `"groups"` of the first tab named `"API Reference"`
and stop. -/
def setAPIRefTabGroups : List Json → Json → Option (List Json)
  | [], _ => some []
  | Json.obj tf :: rest, navigation =>
      if jsonIsStr (objGet tf "tab") "API Reference" then
        some (Json.obj (objSet tf "groups" navigation) :: rest)
      else
        (setAPIRefTabGroups rest navigation).map (Json.obj tf :: ·)
  | _ :: _, _ => none

/-- The pure core of `update_mint_json` from `build_api_docs.py`
(lines 622-634): `tabs = mint_data.get("navigation", {}).get("tabs", [])`,
then the first tab named `"API Reference"` gets its `"groups"` replaced.
Missing `"navigation"` or `"tabs"` keys make the loop run over the `.get`
default `[]`, so the document is written back unchanged. -/
def update_mint_json_build (mint_data navigation : Json) : Option Json :=
  match mint_data with
  | Json.obj fields =>
      match objGet fields "navigation" with
      | none => some (Json.obj fields)
      | some (Json.obj navFields) =>
          match objGet navFields "tabs" with
          | none => some (Json.obj fields)
          | some (Json.arr tabs) =>
              (setAPIRefTabGroups tabs navigation).map (fun tabs' =>
                Json.obj (objSet fields "navigation"
                  (Json.obj (objSet navFields "tabs" (Json.arr tabs')))))
          | some _ => none
      | some _ => none
  | _ => none

/-- Analysis view: the pages stored at the node reached from `t` along the
segment path `p` (an absent node has no pages). -/
def pagesAt : MTree → List String → List String
  | t, [] => t.pages
  | t, s :: p =>
      match lookupChild t.children s with
      | none => []
      | some c => pagesAt c p

/-- Analysis view: the child keys, in insertion order, of the node reached
from `t` along the segment path `p`. -/
def childKeysAt : MTree → List String → List String
  | t, [] => t.children.map Prod.fst
  | t, s :: p =>
      match lookupChild t.children s with
      | none => []
      | some c => childKeysAt c p

theorem pagesAt_emptyNode (p : List String) : pagesAt emptyNode p = [] := by
  cases p <;> rfl

theorem childKeysAt_emptyNode (p : List String) : childKeysAt emptyNode p = [] := by
  cases p <;> rfl

theorem lookupChild_setChild (cs : List (String × MTree)) (k : String)
    (v : MTree) (q : String) :
    lookupChild (setChild cs k v) q =
      if k = q then some v else lookupChild cs q := by
  induction cs with
  | nil =>
      by_cases h : k = q <;> simp [setChild, lookupChild, beq_iff_eq, h]
  | cons hd tl ih =>
      obtain ⟨k', t'⟩ := hd
      by_cases h1 : k' = k
      · subst h1
        by_cases h2 : k' = q <;>
          simp [setChild, lookupChild, beq_iff_eq, h2]
      · by_cases h2 : k' = q
        · subst h2
          have : ¬ k = k' := fun h => h1 h.symm
          simp [setChild, lookupChild, beq_iff_eq, h1, this]
        · simp [setChild, lookupChild, beq_iff_eq, h1, h2, ih]

theorem keys_setChild (cs : List (String × MTree)) (k : String) (v : MTree) :
    (setChild cs k v).map Prod.fst =
      if k ∈ cs.map Prod.fst then cs.map Prod.fst
      else cs.map Prod.fst ++ [k] := by
  induction cs with
  | nil => simp [setChild]
  | cons hd tl ih =>
      obtain ⟨k', t'⟩ := hd
      by_cases h1 : k' = k
      · subst h1
        simp [setChild, beq_iff_eq]
      · have : ¬ k = k' := fun h => h1 h.symm
        by_cases h2 : k ∈ tl.map Prod.fst <;>
          simp [setChild, beq_iff_eq, h1, this, h2, ih]

theorem lookupChild_eq_none_iff (cs : List (String × MTree)) (k : String) :
    lookupChild cs k = none ↔ k ∉ cs.map Prod.fst := by
  induction cs with
  | nil => simp [lookupChild]
  | cons hd tl ih =>
      obtain ⟨k', t'⟩ := hd
      by_cases h : k' = k
      · subst h
        simp [lookupChild]
      · have : ¬ k = k' := fun hh => h hh.symm
        simp [lookupChild, beq_iff_eq, h, this, ih]

theorem pagesAt_cons_getD (ps : List String) (cs : List (String × MTree))
    (q : String) (p' : List String) :
    pagesAt (MTree.node ps cs) (q :: p') =
      pagesAt ((lookupChild cs q).getD emptyNode) p' := by
  simp only [pagesAt, MTree.children]
  cases lookupChild cs q with
  | none => simp [pagesAt_emptyNode]
  | some c => simp

theorem childKeysAt_cons_getD (ps : List String) (cs : List (String × MTree))
    (q : String) (p' : List String) :
    childKeysAt (MTree.node ps cs) (q :: p') =
      childKeysAt ((lookupChild cs q).getD emptyNode) p' := by
  simp only [childKeysAt, MTree.children]
  cases lookupChild cs q with
  | none => simp [childKeysAt_emptyNode]
  | some c => simp

theorem pagesAt_insertSegs (segs : List String) (ref : String) (dir : Bool)
    (t : MTree) (p : List String) :
    pagesAt (insertSegs segs ref dir t) p =
      if p = segs then
        (if dir then ref :: pagesAt t p else pagesAt t p ++ [ref])
      else pagesAt t p := by
  induction segs generalizing t p with
  | nil =>
      obtain ⟨ps, cs⟩ := t
      cases p with
      | nil => simp [insertSegs, pagesAt, MTree.pages]
      | cons q p' => simp [insertSegs, pagesAt, MTree.children]
  | cons s rest ih =>
      obtain ⟨ps, cs⟩ := t
      cases p with
      | nil => simp [insertSegs, pagesAt, MTree.pages]
      | cons q p' =>
          by_cases hq : q = s
          · subst hq
            have hlook : lookupChild (setChild cs q
                (insertSegs rest ref dir ((lookupChild cs q).getD emptyNode)))
                  q = some (insertSegs rest ref dir
                    ((lookupChild cs q).getD emptyNode)) := by
              rw [lookupChild_setChild]; simp
            have hl : pagesAt (insertSegs (q :: rest) ref dir
                (MTree.node ps cs)) (q :: p') =
                pagesAt (insertSegs rest ref dir
                  ((lookupChild cs q).getD emptyNode)) p' := by
              simp only [insertSegs, pagesAt, MTree.children, hlook]
            rw [hl, ih, pagesAt_cons_getD]
            by_cases hp : p' = rest <;> simp [hp]
          · have hlook : lookupChild (setChild cs s
                (insertSegs rest ref dir ((lookupChild cs s).getD emptyNode)))
                  q = lookupChild cs q := by
              rw [lookupChild_setChild, if_neg (fun h => hq h.symm)]
            have hne : ¬ (q :: p' = s :: rest) := by
              intro h; exact hq (List.cons.injEq .. ▸ h).1
            have hl : pagesAt (insertSegs (s :: rest) ref dir
                (MTree.node ps cs)) (q :: p') =
                pagesAt (MTree.node ps cs) (q :: p') := by
              simp only [insertSegs, pagesAt, MTree.children, hlook]
            rw [hl, if_neg hne]

/-- The child key that inserting along `segs` creates or reuses at path `p`:
`some k` when `segs` extends `p` by `k`, else `none`. -/
def nextSeg : List String → List String → Option String
  | [], [] => none
  | [], k :: _ => some k
  | _ :: _, [] => none
  | q :: p', s :: segs' => if s = q then nextSeg p' segs' else none

/-- Appending a key to a key list unless it is already present (the effect of
one `defaultdict` access on a node's key list). -/
def addKeyOnce (K : List String) (k : String) : List String :=
  if k ∈ K then K else K ++ [k]

theorem childKeysAt_insertSegs (segs : List String) (ref : String) (dir : Bool)
    (t : MTree) (p : List String) :
    childKeysAt (insertSegs segs ref dir t) p =
      match nextSeg p segs with
      | none => childKeysAt t p
      | some k => addKeyOnce (childKeysAt t p) k := by
  induction segs generalizing t p with
  | nil =>
      obtain ⟨ps, cs⟩ := t
      cases p with
      | nil => simp [insertSegs, childKeysAt, MTree.children, nextSeg]
      | cons q p' => simp [insertSegs, childKeysAt, MTree.children, nextSeg]
  | cons s rest ih =>
      obtain ⟨ps, cs⟩ := t
      cases p with
      | nil =>
          simp [insertSegs, childKeysAt, MTree.children, nextSeg, keys_setChild,
            addKeyOnce]
      | cons q p' =>
          by_cases hq : s = q
          · subst hq
            have hlook : lookupChild (setChild cs s
                (insertSegs rest ref dir ((lookupChild cs s).getD emptyNode)))
                  s = some (insertSegs rest ref dir
                    ((lookupChild cs s).getD emptyNode)) := by
              rw [lookupChild_setChild]; simp
            have hl : childKeysAt (insertSegs (s :: rest) ref dir
                (MTree.node ps cs)) (s :: p') =
                childKeysAt (insertSegs rest ref dir
                  ((lookupChild cs s).getD emptyNode)) p' := by
              simp only [insertSegs, childKeysAt, MTree.children, hlook]
            have hns : nextSeg (s :: p') (s :: rest) = nextSeg p' rest := by
              simp [nextSeg]
            rw [hl, ih, hns, childKeysAt_cons_getD]
          · have hlook : lookupChild (setChild cs s
                (insertSegs rest ref dir ((lookupChild cs s).getD emptyNode)))
                  q = lookupChild cs q := by
              rw [lookupChild_setChild, if_neg hq]
            have hns : nextSeg (q :: p') (s :: rest) = none := by
              simp [nextSeg, hq]
            have hl : childKeysAt (insertSegs (s :: rest) ref dir
                (MTree.node ps cs)) (q :: p') =
                childKeysAt (MTree.node ps cs) (q :: p') := by
              simp only [insertSegs, childKeysAt, MTree.children, hlook]
            rw [hl, hns]

theorem addFile_eq (t : MTree) (stem : String) :
    addFile t stem =
      match storeSpec stem with
      | none => t
      | some (segs, ref, dir) => insertSegs segs ref dir t := by
  obtain ⟨ps, cs⟩ := t
  by_cases h1 : pyStartsWith stem "camel."
  · by_cases h2 : (pySplit '.' stem).length == 1 <;>
      simp [addFile, storeSpec, h1, h2, insertSegs]
  · simp [addFile, storeSpec, h1]

theorem pagesAt_addFile (t : MTree) (stem : String) (p : List String) :
    pagesAt (addFile t stem) p =
      match storeSpec stem with
      | none => pagesAt t p
      | some (segs, ref, dir) =>
          if p = segs then
            (if dir then ref :: pagesAt t p else pagesAt t p ++ [ref])
          else pagesAt t p := by
  rw [addFile_eq]
  cases h : storeSpec stem with
  | none => rfl
  | some v =>
      obtain ⟨segs, ref, dir⟩ := v
      simp [pagesAt_insertSegs]

theorem childKeysAt_addFile (t : MTree) (stem : String) (p : List String) :
    childKeysAt (addFile t stem) p =
      match storeSpec stem with
      | none => childKeysAt t p
      | some (segs, ref, dir) =>
          match nextSeg p segs with
          | none => childKeysAt t p
          | some k => addKeyOnce (childKeysAt t p) k := by
  rw [addFile_eq]
  cases h : storeSpec stem with
  | none => rfl
  | some v =>
      obtain ⟨segs, ref, dir⟩ := v
      simp [childKeysAt_insertSegs]

/-- Two trees holding the same pages (as multisets) at every path and the same
child keys (as sets) at every path; the renderer cannot distinguish them. -/
def TreeSim (t t' : MTree) : Prop :=
  (∀ p, (pagesAt t p).Perm (pagesAt t' p)) ∧
  (∀ p, (childKeysAt t p).Perm (childKeysAt t' p))

theorem TreeSim.refl (t : MTree) : TreeSim t t :=
  ⟨fun _ => List.Perm.refl _, fun _ => List.Perm.refl _⟩

theorem TreeSim.trans {a b c : MTree} (h1 : TreeSim a b) (h2 : TreeSim b c) :
    TreeSim a c :=
  ⟨fun p => (h1.1 p).trans (h2.1 p), fun p => (h1.2 p).trans (h2.2 p)⟩

theorem addKeyOnce_perm {K K' : List String} (h : K.Perm K') (k : String) :
    (addKeyOnce K k).Perm (addKeyOnce K' k) := by
  unfold addKeyOnce
  by_cases hk : k ∈ K
  · rw [if_pos hk, if_pos (h.mem_iff.mp hk)]
    exact h
  · rw [if_neg hk, if_neg (fun hh => hk (h.mem_iff.mpr hh))]
    exact h.append_right [k]

theorem addKeyOnce_comm (K : List String) (a b : String) :
    (addKeyOnce (addKeyOnce K a) b).Perm (addKeyOnce (addKeyOnce K b) a) := by
  by_cases hab : a = b
  · subst hab; exact List.Perm.refl _
  · by_cases ha : a ∈ K <;> by_cases hb : b ∈ K
    · simp [addKeyOnce, ha, hb]
    · simp [addKeyOnce, ha, hb]
    · simp [addKeyOnce, ha, hb, fun h : a = b => hab h]
    · have hba : ¬ b = a := fun h => hab h.symm
      simp only [addKeyOnce, if_neg ha, if_neg hb, List.mem_append,
        List.mem_singleton, if_neg (by simp [hba, hb] : ¬ (b ∈ K ∨ b = a)),
        if_neg (by simp [hab, ha] : ¬ (a ∈ K ∨ a = b))]
      rw [List.append_assoc, List.append_assoc]
      exact List.Perm.append_left K (List.Perm.swap b a [])

theorem TreeSim.addFile_congr {t t' : MTree} (h : TreeSim t t') (stem : String) :
    TreeSim (addFile t stem) (addFile t' stem) := by
  obtain ⟨hp, hk⟩ := h
  constructor
  · intro p
    rw [pagesAt_addFile, pagesAt_addFile]
    cases storeSpec stem with
    | none => exact hp p
    | some v =>
        obtain ⟨segs, ref, dir⟩ := v
        dsimp only
        by_cases hps : p = segs
        · rw [if_pos hps, if_pos hps]
          cases dir with
          | false => simpa using (hp p).append_right [ref]
          | true => simpa using (hp p).cons ref
        · rw [if_neg hps, if_neg hps]
          exact hp p
  · intro p
    rw [childKeysAt_addFile, childKeysAt_addFile]
    cases storeSpec stem with
    | none => exact hk p
    | some v =>
        obtain ⟨segs, ref, dir⟩ := v
        dsimp only
        cases nextSeg p segs with
        | none => exact hk p
        | some k => exact addKeyOnce_perm (hk p) k

theorem addFile_comm_sim (t : MTree) (a b : String) :
    TreeSim (addFile (addFile t a) b) (addFile (addFile t b) a) := by
  constructor
  · intro p
    simp only [pagesAt_addFile]
    cases ha : storeSpec a with
    | none =>
        cases hb : storeSpec b with
        | none => exact List.Perm.refl _
        | some vb => exact List.Perm.refl _
    | some va =>
        obtain ⟨sa, ra, da⟩ := va
        dsimp only
        cases hb : storeSpec b with
        | none => exact List.Perm.refl _
        | some vb =>
            obtain ⟨sb, rb, db⟩ := vb
            dsimp only
            by_cases hpa : p = sa <;> by_cases hpb : p = sb
            · rw [if_pos hpa, if_pos hpb, if_pos hpa, if_pos hpb]
              cases da <;> cases db <;>
                simp only [if_true, if_false, Bool.false_eq_true,
                  List.cons_append, List.append_assoc]
              · exact List.Perm.append_left _ (List.Perm.swap rb ra [])
              · exact List.Perm.refl _
              · exact List.Perm.refl _
              · exact List.Perm.swap ra rb _
            · simp only [if_pos hpa, if_neg hpb]
              exact List.Perm.refl _
            · simp only [if_neg hpa, if_pos hpb]
              exact List.Perm.refl _
            · simp only [if_neg hpa, if_neg hpb]
              exact List.Perm.refl _
  · intro p
    simp only [childKeysAt_addFile]
    cases ha : storeSpec a with
    | none =>
        cases hb : storeSpec b with
        | none => exact List.Perm.refl _
        | some vb => exact List.Perm.refl _
    | some va =>
        obtain ⟨sa, ra, da⟩ := va
        dsimp only
        cases hb : storeSpec b with
        | none => exact List.Perm.refl _
        | some vb =>
            obtain ⟨sb, rb, db⟩ := vb
            dsimp only
            cases nextSeg p sa with
            | none =>
                cases nextSeg p sb with
                | none => exact List.Perm.refl _
                | some kb => dsimp only; exact List.Perm.refl _
            | some ka =>
                cases nextSeg p sb with
                | none => dsimp only; exact List.Perm.refl _
                | some kb =>
                    dsimp only
                    exact addKeyOnce_comm (childKeysAt t p) ka kb

theorem TreeSim.foldl_same (l : List String) {t t' : MTree}
    (h : TreeSim t t') : TreeSim (l.foldl addFile t) (l.foldl addFile t') := by
  induction l generalizing t t' with
  | nil => simpa using h
  | cons x xs ih => simpa using ih (h.addFile_congr x)

theorem TreeSim.foldl_perm {l l' : List String} (hp : l.Perm l') :
    ∀ {t t' : MTree}, TreeSim t t' →
      TreeSim (l.foldl addFile t) (l'.foldl addFile t') := by
  induction hp with
  | nil => intro t t' h; simpa using h
  | cons x hxs ih => intro t t' h; simpa using ih (h.addFile_congr x)
  | swap x y xs =>
      intro t t' h
      simp only [List.foldl_cons]
      exact TreeSim.foldl_same xs
        (((h.addFile_congr y).addFile_congr x).trans (addFile_comm_sim t' y x))
  | trans h1 h2 ih1 ih2 =>
      intro t t' h
      exact (ih1 h).trans (ih2 (TreeSim.refl _))

theorem build_module_tree_sim {l l' : List String} (hp : l.Perm l') :
    TreeSim (build_module_tree l) (build_module_tree l') :=
  TreeSim.foldl_perm hp (TreeSim.refl emptyNode)

theorem addKeyOnce_nodup {K : List String} (h : K.Nodup) (k : String) :
    (addKeyOnce K k).Nodup := by
  unfold addKeyOnce
  by_cases hk : k ∈ K
  · rw [if_pos hk]; exact h
  · rw [if_neg hk]
    refine h.append (List.nodup_singleton k) ?_
    intro a ha hb
    simp only [List.mem_singleton] at hb
    subst hb
    exact hk ha

theorem childKeysAt_foldl_nodup (l : List String) (t : MTree)
    (ht : ∀ q, (childKeysAt t q).Nodup) (q : List String) :
    (childKeysAt (l.foldl addFile t) q).Nodup := by
  induction l generalizing t with
  | nil => simpa using ht q
  | cons x xs ih =>
      simp only [List.foldl_cons]
      refine ih (addFile t x) ?_
      intro r
      rw [childKeysAt_addFile]
      cases storeSpec x with
      | none => exact ht r
      | some v =>
          obtain ⟨segs, ref, dir⟩ := v
          dsimp only
          cases nextSeg r segs with
          | none => exact ht r
          | some k => exact addKeyOnce_nodup (ht r) k

theorem childKeysAt_build_nodup (l : List String) (p : List String) :
    (childKeysAt (build_module_tree l) p).Nodup := by
  refine childKeysAt_foldl_nodup l emptyNode ?_ p
  intro q
  rw [childKeysAt_emptyNode]
  exact List.nodup_nil

theorem strLeChars_total (a b : List Char) :
    strLeChars a b = true ∨ strLeChars b a = true := by
  induction a generalizing b with
  | nil => left; rfl
  | cons c cs ih =>
      cases b with
      | nil => right; rfl
      | cons d ds =>
          by_cases h1 : c.toNat < d.toNat
          · left; simp [strLeChars, h1]
          · by_cases h2 : d.toNat < c.toNat
            · right; simp [strLeChars, h2]
            · rcases ih ds with h | h
              · left; simp [strLeChars, h1, h2, h]
              · right; simp [strLeChars, h1, h2, h]

theorem strLeChars_trans (a b c : List Char) (hab : strLeChars a b = true)
    (hbc : strLeChars b c = true) : strLeChars a c = true := by
  induction a generalizing b c with
  | nil => rfl
  | cons x xs ih =>
      cases b with
      | nil => simp [strLeChars] at hab
      | cons y ys =>
          cases c with
          | nil => simp [strLeChars] at hbc
          | cons z zs =>
              simp only [strLeChars] at hab hbc ⊢
              by_cases hxy : x.toNat < y.toNat
              · by_cases hyz : y.toNat < z.toNat
                · simp [Nat.lt_trans hxy hyz]
                · by_cases hzy : z.toNat < y.toNat
                  · simp [hyz, hzy] at hbc
                  · have h : x.toNat < z.toNat := by omega
                    simp [h]
              · by_cases hyx : y.toNat < x.toNat
                · simp [hxy, hyx] at hab
                · have hab2 : strLeChars xs ys = true := by
                    simpa [hxy, hyx] using hab
                  by_cases hyz : y.toNat < z.toNat
                  · have h : x.toNat < z.toNat := by omega
                    simp [h]
                  · by_cases hzy : z.toNat < y.toNat
                    · simp [hyz, hzy] at hbc
                    · have hbc2 : strLeChars ys zs = true := by
                        simpa [hyz, hzy] using hbc
                      have h1 : ¬ x.toNat < z.toNat := by omega
                      have h2 : ¬ z.toNat < x.toNat := by omega
                      simp [h1, h2, ih ys zs hab2 hbc2]

theorem strLeChars_antisymm (a b : List Char) (hab : strLeChars a b = true)
    (hba : strLeChars b a = true) : a = b := by
  induction a generalizing b with
  | nil =>
      cases b with
      | nil => rfl
      | cons d ds => simp [strLeChars] at hba
  | cons c cs ih =>
      cases b with
      | nil => simp [strLeChars] at hab
      | cons d ds =>
          by_cases h1 : c.toNat < d.toNat
          · have h2 : ¬ d.toNat < c.toNat := by omega
            simp [strLeChars, h1, h2] at hba
          · by_cases h2 : d.toNat < c.toNat
            · simp [strLeChars, h1, h2] at hab
            · have hcd : c = d :=
                Char.ext (UInt32.ext (le_antisymm (Nat.not_lt.mp h2)
                  (Nat.not_lt.mp h1)))
            
              subst hcd
              have hab2 : strLeChars cs ds = true := by
                simpa [strLeChars, h1, h2] using hab
              have hba2 : strLeChars ds cs = true := by
                simpa [strLeChars, h1, h2] using hba
              rw [ih ds hab2 hba2]

instance : IsTotal String strLeRel :=
  ⟨fun a b => strLeChars_total a.data b.data⟩

instance : IsTrans String strLeRel :=
  ⟨fun a b c => strLeChars_trans a.data b.data c.data⟩

instance : IsAntisymm String strLeRel :=
  ⟨fun a b hab hba => String.ext (strLeChars_antisymm a.data b.data hab hba)⟩

instance : IsTotal (String × MTree) keyLe :=
  ⟨fun a b => strLeChars_total a.1.data b.1.data⟩

instance : IsTrans (String × MTree) keyLe :=
  ⟨fun a b c => strLeChars_trans a.1.data b.1.data c.1.data⟩

theorem sortStr_perm (l : List String) : (sortStr l).Perm l :=
  List.perm_insertionSort strLeRel l

theorem sortStr_sorted (l : List String) : List.Sorted strLeRel (sortStr l) :=
  List.sorted_insertionSort strLeRel l

theorem sortStr_eq_of_perm {l l' : List String} (h : l.Perm l') :
    sortStr l = sortStr l' :=
  List.eq_of_perm_of_sorted
    ((sortStr_perm l).trans (h.trans (sortStr_perm l').symm))
    (sortStr_sorted l) (sortStr_sorted l')

theorem mem_sortStr {l : List String} {a : String} :
    a ∈ sortStr l ↔ a ∈ l :=
  (sortStr_perm l).mem_iff

theorem sortedItems_perm (cs : List (String × MTree)) :
    (sortedItems cs).Perm cs :=
  List.perm_insertionSort keyLe cs

theorem mem_lookupChild_of_nodup {cs : List (String × MTree)}
    (hnd : (cs.map Prod.fst).Nodup) {k : String} {v : MTree}
    (hmem : (k, v) ∈ cs) : lookupChild cs k = some v := by
  induction cs with
  | nil => cases hmem
  | cons hd tl ih =>
      obtain ⟨k', v'⟩ := hd
      rcases List.mem_cons.mp hmem with heq | htl
      · obtain ⟨h1, h2⟩ := Prod.mk.injEq .. ▸ heq
        simp [lookupChild, h1.symm, h2]
      · have hk : ¬ k' = k := by
          intro h
          subst h
          exact (List.nodup_cons.mp hnd).1
            (List.mem_map.mpr ⟨(k', v), htl, rfl⟩)
        simp only [lookupChild, beq_iff_eq, if_neg hk]
        exact ih (List.nodup_cons.mp hnd).2 htl

theorem map_fst_sortedItems (cs : List (String × MTree)) :
    (sortedItems cs).map Prod.fst = sortStr (cs.map Prod.fst) := by
  refine List.eq_of_perm_of_sorted (r := strLeRel) ?_ ?_ ?_
  · exact ((sortedItems_perm cs).map Prod.fst).trans
      (sortStr_perm (cs.map Prod.fst)).symm
  · exact List.pairwise_map.mpr (List.sorted_insertionSort keyLe cs)
  · exact sortStr_sorted (cs.map Prod.fst)

theorem pairs_eq_map_keys (cs : List (String × MTree)) :
    ∀ (A : List (String × MTree)) (K : List String),
      A.map Prod.fst = K →
      (∀ kv ∈ A, lookupChild cs kv.1 = some kv.2) →
      A = K.map (fun k => (k, (lookupChild cs k).getD emptyNode)) := by
  intro A
  induction A with
  | nil =>
      intro K hK _
      simp at hK
      simp [← hK]
  | cons kv A' ih =>
      intro K hK hlook
      obtain ⟨k, v⟩ := kv
      cases K with
      | nil => simp at hK
      | cons k0 K' =>
          simp only [List.map_cons, List.cons.injEq] at hK
          obtain ⟨hk0, hK'⟩ := hK
          have hv : lookupChild cs k = some v :=
            hlook (k, v) (List.mem_cons_self _ _)
          simp only [List.map_cons, List.cons.injEq]
          refine ⟨?_, ih K' hK' (fun kv h => hlook kv (List.mem_cons_of_mem _ h))⟩
          rw [← hk0, hv]
          rfl

theorem sortedItems_eq (cs : List (String × MTree))
    (hnd : (cs.map Prod.fst).Nodup) :
    sortedItems cs =
      (sortStr (cs.map Prod.fst)).map
        (fun k => (k, (lookupChild cs k).getD emptyNode)) := by
  refine pairs_eq_map_keys cs (sortedItems cs) (sortStr (cs.map Prod.fst))
    (map_fst_sortedItems cs) ?_
  intro kv hkv
  obtain ⟨k, v⟩ := kv
  exact mem_lookupChild_of_nodup hnd ((sortedItems_perm cs).mem_iff.mp hkv)

/-- The claim's description of a rendered group's page list: the category
node's own pages in lexicographic path order, followed by each grandchild
node's own pages (grandchildren in lexicographic segment order, each page
list in lexicographic path order) appended into the same flat list. -/
def specGroupPages (sub : MTree) : List String :=
  sortStr sub.pages ++
    (sortStr (sub.children.map Prod.fst)).flatMap
      (fun k => sortStr (((lookupChild sub.children k).getD emptyNode).pages))

/-- The top-of-navigation root page emitted before the category groups. -/
def camelHead (t : MTree) : List NavEntry :=
  if (t.pages.map stemLastSeg).contains "camel" then
    [NavEntry.page "reference/camel"]
  else []

/-- What one `MODULE_ORDER` iteration of `convert_tree_to_navigation`
(`organize_modules.py`) appends, in normal form. -/
def convertCat (t : MTree) (m : String) : List NavEntry :=
  if m == "camel" then []
  else
    match lookupChild t.children m with
    | none => []
    | some sub =>
        if specGroupPages sub = [] then []
        else [NavEntry.group (get_module_display_name m)
                ((specGroupPages sub).map NavEntry.page)]

/-- What one `MODULE_ORDER` iteration of `convert_tree_to_navigation`
(`build_api_docs.py`) appends, in normal form. -/
def convertCat_build (t : MTree) (m : String) : List NavEntry :=
  match lookupChild t.children m with
  | none => []
  | some sub =>
      if specGroupPages sub = [] then []
      else [NavEntry.group (get_module_display_name m)
              ((specGroupPages sub).map NavEntry.page)]

theorem sortStr_nil : sortStr [] = [] := rfl

theorem foldl_flatten (items : List (String × MTree)) (acc : List String) :
    items.foldl
      (fun acc kd =>
        if kd.2.pages.isEmpty then acc
        else if kd.2.pages.length > 1 then acc ++ sortStr kd.2.pages
        else acc ++ sortStr kd.2.pages)
      acc
    = acc ++ items.flatMap (fun kd => sortStr kd.2.pages) := by
  induction items generalizing acc with
  | nil => simp
  | cons kd rest ih =>
      rw [List.foldl_cons, List.flatMap_cons]
      by_cases h1 : kd.2.pages.isEmpty
      · have hp : kd.2.pages = [] := List.isEmpty_iff.mp h1
        rw [if_pos h1, ih, hp, sortStr_nil, List.nil_append]
      · rw [if_neg h1]
        by_cases h2 : kd.2.pages.length > 1
        · rw [if_pos h2, ih, List.append_assoc]
        · rw [if_neg h2, ih, List.append_assoc]

theorem foldl_flatten_build (items : List (String × MTree))
    (acc : List String) :
    items.foldl
      (fun acc kd =>
        if kd.2.pages.isEmpty then acc else acc ++ sortStr kd.2.pages)
      acc
    = acc ++ items.flatMap (fun kd => sortStr kd.2.pages) := by
  induction items generalizing acc with
  | nil => simp
  | cons kd rest ih =>
      rw [List.foldl_cons, List.flatMap_cons]
      by_cases h1 : kd.2.pages.isEmpty
      · have hp : kd.2.pages = [] := List.isEmpty_iff.mp h1
        rw [if_pos h1, ih, hp, sortStr_nil, List.nil_append]
      · rw [if_neg h1, ih, List.append_assoc]

theorem grandchild_flatten (sub : MTree)
    (hnd : (sub.children.map Prod.fst).Nodup) :
    (sortedItems sub.children).flatMap (fun kd => sortStr kd.2.pages) =
      (sortStr (sub.children.map Prod.fst)).flatMap
        (fun k => sortStr (((lookupChild sub.children k).getD emptyNode).pages)) := by
  rw [sortedItems_eq sub.children hnd, List.flatMap_map]

theorem convertStep_eq (t : MTree) (nav : List NavEntry) (m : String)
    (h : ∀ sub, lookupChild t.children m = some sub →
      (sub.children.map Prod.fst).Nodup) :
    convertStep t nav m = nav ++ convertCat t m := by
  unfold convertStep convertCat
  by_cases hc : m == "camel"
  · simp [hc]
  · simp only [hc, Bool.false_eq_true, if_false]
    cases hl : lookupChild t.children m with
    | none => simp
    | some sub =>
        have hnd := h sub hl
        have hpages : (if sub.children.isEmpty then sortStr sub.pages
            else (sortedItems sub.children).foldl
              (fun acc kd =>
                if kd.2.pages.isEmpty then acc
                else if kd.2.pages.length > 1 then acc ++ sortStr kd.2.pages
                else acc ++ sortStr kd.2.pages)
              (sortStr sub.pages)) = specGroupPages sub := by
          by_cases hempty : sub.children.isEmpty
          · have hcn : sub.children = [] := List.isEmpty_iff.mp hempty
            simp [specGroupPages, hcn, sortStr_nil, hempty]
          · rw [if_neg hempty, foldl_flatten, grandchild_flatten sub hnd]
            rfl
        dsimp only
        rw [hpages]
        by_cases hz : specGroupPages sub = []
        · simp [hz, sortStr_nil]
        · have hne : ¬ (specGroupPages sub).isEmpty := by
            simpa [List.isEmpty_iff] using hz
          simp [hz, hne]

theorem convertStep_build_eq (t : MTree) (nav : List NavEntry) (m : String)
    (h : ∀ sub, lookupChild t.children m = some sub →
      (sub.children.map Prod.fst).Nodup) :
    convertStep_build t nav m = nav ++ convertCat_build t m := by
  unfold convertStep_build convertCat_build
  cases hl : lookupChild t.children m with
  | none => simp
  | some sub =>
      have hnd := h sub hl
      have hpages : (if sub.children.isEmpty then sortStr sub.pages
          else (sortedItems sub.children).foldl
            (fun acc kd =>
              if kd.2.pages.isEmpty then acc else acc ++ sortStr kd.2.pages)
            (sortStr sub.pages)) = specGroupPages sub := by
        by_cases hempty : sub.children.isEmpty
        · have hcn : sub.children = [] := List.isEmpty_iff.mp hempty
          simp [specGroupPages, hcn, sortStr_nil, hempty]
        · rw [if_neg hempty, foldl_flatten_build, grandchild_flatten sub hnd]
          rfl
      dsimp only
      rw [hpages]
      by_cases hz : specGroupPages sub = []
      · simp [hz, sortStr_nil]
      · have hne : ¬ (specGroupPages sub).isEmpty := by
          simpa [List.isEmpty_iff] using hz
        simp [hz, hne]

theorem foldl_convertStep_eq (t : MTree) (mo : List String)
    (nav : List NavEntry)
    (h : ∀ m sub, lookupChild t.children m = some sub →
      (sub.children.map Prod.fst).Nodup) :
    mo.foldl (convertStep t) nav = nav ++ mo.flatMap (convertCat t) := by
  induction mo generalizing nav with
  | nil => simp
  | cons m rest ih =>
      rw [List.foldl_cons, List.flatMap_cons, convertStep_eq t nav m (h m),
        ih, List.append_assoc]

theorem foldl_convertStep_build_eq (t : MTree) (mo : List String)
    (nav : List NavEntry)
    (h : ∀ m sub, lookupChild t.children m = some sub →
      (sub.children.map Prod.fst).Nodup) :
    mo.foldl (convertStep_build t) nav = nav ++ mo.flatMap (convertCat_build t) := by
  induction mo generalizing nav with
  | nil => simp
  | cons m rest ih =>
      rw [List.foldl_cons, List.flatMap_cons, convertStep_build_eq t nav m (h m),
        ih, List.append_assoc]

theorem convert_eq (t : MTree)
    (h : ∀ m sub, lookupChild t.children m = some sub →
      (sub.children.map Prod.fst).Nodup) :
    convert_tree_to_navigation t = camelHead t ++ MODULE_ORDER.flatMap (convertCat t) :=
  foldl_convertStep_eq t MODULE_ORDER (camelHead t) h

theorem convert_build_eq (t : MTree)
    (h : ∀ m sub, lookupChild t.children m = some sub →
      (sub.children.map Prod.fst).Nodup) :
    convert_tree_to_navigation_build t =
      camelHead t ++ MODULE_ORDER_build.flatMap (convertCat_build t) :=
  foldl_convertStep_build_eq t MODULE_ORDER_build (camelHead t) h

theorem pagesAt_one (t : MTree) (m : String) (sub : MTree)
    (hl : lookupChild t.children m = some sub) :
    pagesAt t [m] = sub.pages := by
  show (match lookupChild t.children m with
        | none => []
        | some c => pagesAt c []) = sub.pages
  rw [hl]
  rfl

theorem childKeysAt_one (t : MTree) (m : String) (sub : MTree)
    (hl : lookupChild t.children m = some sub) :
    childKeysAt t [m] = sub.children.map Prod.fst := by
  show (match lookupChild t.children m with
        | none => []
        | some c => childKeysAt c []) = sub.children.map Prod.fst
  rw [hl]
  rfl

theorem pagesAt_two (t : MTree) (m k : String) (sub : MTree)
    (hl : lookupChild t.children m = some sub) :
    pagesAt t [m, k] = ((lookupChild sub.children k).getD emptyNode).pages := by
  show (match lookupChild t.children m with
        | none => []
        | some c => pagesAt c [k]) =
      ((lookupChild sub.children k).getD emptyNode).pages
  rw [hl]
  show (match lookupChild sub.children k with
        | none => []
        | some c => pagesAt c []) = _
  cases lookupChild sub.children k with
  | none => rfl
  | some c => rfl

theorem build_children_nodup (l : List String) :
    ∀ m sub, lookupChild (build_module_tree l).children m = some sub →
      (sub.children.map Prod.fst).Nodup := by
  intro m sub hl
  have h := childKeysAt_build_nodup l [m]
  rwa [childKeysAt_one (build_module_tree l) m sub hl] at h

theorem specGroupPages_canon (t : MTree) (m : String) (sub : MTree)
    (hl : lookupChild t.children m = some sub) :
    specGroupPages sub =
      sortStr (pagesAt t [m]) ++
        (sortStr (childKeysAt t [m])).flatMap
          (fun k => sortStr (pagesAt t [m, k])) := by
  rw [specGroupPages, pagesAt_one t m sub hl, childKeysAt_one t m sub hl]
  congr 1
  apply List.flatMap_congr
  intro k _
  rw [pagesAt_two t m k sub hl]

theorem convertCat_congr {t t' : MTree} (h : TreeSim t t') (m : String) :
    convertCat t m = convertCat t' m := by
  unfold convertCat
  by_cases hc : m == "camel"
  · rw [if_pos hc, if_pos hc]
  · rw [if_neg hc, if_neg hc]
    have hkeys : m ∈ t.children.map Prod.fst ↔ m ∈ t'.children.map Prod.fst :=
      (h.2 []).mem_iff
    cases hlt : lookupChild t.children m with
    | none =>
        cases hlt' : lookupChild t'.children m with
        | none => rfl
        | some sub' =>
            exfalso
            have h1 := (lookupChild_eq_none_iff t.children m).mp hlt
            have h2 : m ∈ t'.children.map Prod.fst := by
              by_contra hmem
              rw [← lookupChild_eq_none_iff] at hmem
              rw [hmem] at hlt'
              cases hlt'
            exact h1 (hkeys.mpr h2)
    | some sub =>
        cases hlt' : lookupChild t'.children m with
        | none =>
            exfalso
            have h1 := (lookupChild_eq_none_iff t'.children m).mp hlt'
            have h2 : m ∈ t.children.map Prod.fst := by
              by_contra hmem
              rw [← lookupChild_eq_none_iff] at hmem
              rw [hmem] at hlt
              cases hlt
            exact h1 (hkeys.mp h2)
        | some sub' =>
            dsimp only
            rw [specGroupPages_canon t m sub hlt,
              specGroupPages_canon t' m sub' hlt']
            have e1 : sortStr (pagesAt t [m]) = sortStr (pagesAt t' [m]) :=
              sortStr_eq_of_perm (h.1 [m])
            have e2 : sortStr (childKeysAt t [m]) =
                sortStr (childKeysAt t' [m]) :=
              sortStr_eq_of_perm (h.2 [m])
            have e3 : ∀ k, sortStr (pagesAt t [m, k]) =
                sortStr (pagesAt t' [m, k]) :=
              fun k => sortStr_eq_of_perm (h.1 [m, k])
            rw [e1, e2]
            simp only [e3]

theorem convertCat_build_congr {t t' : MTree} (h : TreeSim t t') (m : String) :
    convertCat_build t m = convertCat_build t' m := by
  unfold convertCat_build
  have hkeys : m ∈ t.children.map Prod.fst ↔ m ∈ t'.children.map Prod.fst :=
    (h.2 []).mem_iff
  cases hlt : lookupChild t.children m with
  | none =>
      cases hlt' : lookupChild t'.children m with
      | none => rfl
      | some sub' =>
          exfalso
          have h1 := (lookupChild_eq_none_iff t.children m).mp hlt
          have h2 : m ∈ t'.children.map Prod.fst := by
            by_contra hmem
            rw [← lookupChild_eq_none_iff] at hmem
            rw [hmem] at hlt'
            cases hlt'
          exact h1 (hkeys.mpr h2)
  | some sub =>
      cases hlt' : lookupChild t'.children m with
      | none =>
          exfalso
          have h1 := (lookupChild_eq_none_iff t'.children m).mp hlt'
          have h2 : m ∈ t.children.map Prod.fst := by
            by_contra hmem
            rw [← lookupChild_eq_none_iff] at hmem
            rw [hmem] at hlt
            cases hlt
          exact h1 (hkeys.mp h2)
      | some sub' =>
          dsimp only
          rw [specGroupPages_canon t m sub hlt,
            specGroupPages_canon t' m sub' hlt']
          have e1 : sortStr (pagesAt t [m]) = sortStr (pagesAt t' [m]) :=
            sortStr_eq_of_perm (h.1 [m])
          have e2 : sortStr (childKeysAt t [m]) =
              sortStr (childKeysAt t' [m]) :=
            sortStr_eq_of_perm (h.2 [m])
          have e3 : ∀ k, sortStr (pagesAt t [m, k]) =
              sortStr (pagesAt t' [m, k]) :=
            fun k => sortStr_eq_of_perm (h.1 [m, k])
          rw [e1, e2]
          simp only [e3]

theorem camelHead_congr {t t' : MTree} (h : TreeSim t t') :
    camelHead t = camelHead t' := by
  unfold camelHead
  have hperm : (t.pages.map stemLastSeg).Perm (t'.pages.map stemLastSeg) :=
    (h.1 []).map stemLastSeg
  have hiff1 : ((t.pages.map stemLastSeg).contains "camel" = true) ↔
      "camel" ∈ t.pages.map stemLastSeg := List.elem_iff
  have hiff2 : ((t'.pages.map stemLastSeg).contains "camel" = true) ↔
      "camel" ∈ t'.pages.map stemLastSeg := List.elem_iff
  have hcont : (t.pages.map stemLastSeg).contains "camel" =
      (t'.pages.map stemLastSeg).contains "camel" := by
    rw [Bool.eq_iff_iff, hiff1, hiff2]
    exact hperm.mem_iff
  rw [hcont]

theorem convert_congr {t t' : MTree} (h : TreeSim t t')
    (hnd : ∀ m sub, lookupChild t.children m = some sub →
      (sub.children.map Prod.fst).Nodup)
    (hnd' : ∀ m sub, lookupChild t'.children m = some sub →
      (sub.children.map Prod.fst).Nodup) :
    convert_tree_to_navigation t = convert_tree_to_navigation t' := by
  rw [convert_eq t hnd, convert_eq t' hnd', camelHead_congr h]
  rw [funext (fun m => convertCat_congr h m)]

theorem convert_build_perm {l l' : List String} (hp : l.Perm l') :
    convert_tree_to_navigation (build_module_tree l) =
      convert_tree_to_navigation (build_module_tree l') :=
  convert_congr (build_module_tree_sim hp)
    (build_children_nodup l) (build_children_nodup l')

theorem mem_ite_append_group {nav : List NavEntry} {dn : String}
    {P : List String} {e : NavEntry}
    (he : e ∈ (if P.isEmpty then nav
      else nav ++ [NavEntry.group dn (P.map NavEntry.page)])) :
    e ∈ nav ∨ ∃ dn2 : String, ∃ ps : List String,
      e = NavEntry.group dn2 (List.map NavEntry.page ps) := by
  split at he
  · exact Or.inl he
  · rcases List.mem_append.mp he with h | h
    · exact Or.inl h
    · simp only [List.mem_singleton] at h
      exact Or.inr ⟨dn, P, h⟩

theorem convertStep_mem (t : MTree) (nav : List NavEntry) (m : String) :
    ∀ e ∈ convertStep t nav m,
      e ∈ nav ∨ ∃ dn2 : String, ∃ ps : List String,
        e = NavEntry.group dn2 (List.map NavEntry.page ps) := by
  intro e he
  unfold convertStep at he
  by_cases hc : m == "camel"
  · rw [if_pos hc] at he
    exact Or.inl he
  · rw [if_neg hc] at he
    cases hl : lookupChild t.children m with
    | none => rw [hl] at he; exact Or.inl he
    | some sub =>
        rw [hl] at he
        dsimp only at he
        exact mem_ite_append_group he

theorem convertStep_build_mem (t : MTree) (nav : List NavEntry) (m : String) :
    ∀ e ∈ convertStep_build t nav m,
      e ∈ nav ∨ ∃ dn2 : String, ∃ ps : List String,
        e = NavEntry.group dn2 (List.map NavEntry.page ps) := by
  intro e he
  unfold convertStep_build at he
  cases hl : lookupChild t.children m with
  | none => rw [hl] at he; exact Or.inl he
  | some sub =>
      rw [hl] at he
      dsimp only at he
      exact mem_ite_append_group he

/-- Entries of a rendered group's page list are bare pages. -/
def GroupsFlat (e : NavEntry) : Prop :=
  ∀ dn ps, e = NavEntry.group dn ps → ∀ x ∈ ps, ∃ s, x = NavEntry.page s

theorem groupsFlat_of_map_page (dn : String) (ps : List String) :
    GroupsFlat (NavEntry.group dn (ps.map NavEntry.page)) := by
  intro dn' ps' hps x hx
  obtain ⟨-, h2⟩ := NavEntry.group.injEq .. ▸ hps
  rw [← h2] at hx
  obtain ⟨s, -, hs⟩ := List.mem_map.mp hx
  exact ⟨s, hs.symm⟩

theorem foldl_convertStep_flat (t : MTree) (mo : List String) :
    ∀ nav, (∀ e ∈ nav, GroupsFlat e) →
      ∀ e ∈ mo.foldl (convertStep t) nav, GroupsFlat e := by
  induction mo with
  | nil => intro nav hnav; simpa using hnav
  | cons m rest ih =>
      intro nav hnav
      rw [List.foldl_cons]
      apply ih
      intro e he
      rcases convertStep_mem t nav m e he with h | ⟨dn', ps', hge⟩
      · exact hnav e h
      · rw [hge]
        exact groupsFlat_of_map_page dn' ps'

theorem foldl_convertStep_build_flat (t : MTree) (mo : List String) :
    ∀ nav, (∀ e ∈ nav, GroupsFlat e) →
      ∀ e ∈ mo.foldl (convertStep_build t) nav, GroupsFlat e := by
  induction mo with
  | nil => intro nav hnav; simpa using hnav
  | cons m rest ih =>
      intro nav hnav
      rw [List.foldl_cons]
      apply ih
      intro e he
      rcases convertStep_build_mem t nav m e he with h | ⟨dn', ps', hge⟩
      · exact hnav e h
      · rw [hge]
        exact groupsFlat_of_map_page dn' ps'

theorem camelHead_flat (t : MTree) : ∀ e ∈ camelHead t, GroupsFlat e := by
  intro e he
  unfold camelHead at he
  split at he
  · simp only [List.mem_singleton] at he
    intro dn ps hps
    rw [he] at hps
    cases hps
  · cases he

theorem convert_flat (t : MTree) :
    ∀ e ∈ convert_tree_to_navigation t, GroupsFlat e := by
  apply foldl_convertStep_flat
  exact camelHead_flat t

theorem convert_build_flat (t : MTree) :
    ∀ e ∈ convert_tree_to_navigation_build t, GroupsFlat e := by
  apply foldl_convertStep_build_flat
  exact camelHead_flat t

theorem storeSpec_of_long {stem : String}
    (hstart : pyStartsWith stem "camel." = true)
    (hlen : 5 ≤ (pySplit '.' stem).length) :
    storeSpec stem = some (((pySplit '.' stem).drop 1).dropLast,
      "reference/" ++ stem,
      ((pySplit '.' stem).getLastD "" ==
        (pySplit '.' stem).getD ((pySplit '.' stem).length - 2) "")) := by
  unfold storeSpec
  rw [if_pos hstart]
  dsimp only
  rw [if_neg ?_]
  intro h
  have := beq_iff_eq.mp h
  omega

theorem segs_length_of_long {stem : String}
    (hlen : 5 ≤ (pySplit '.' stem).length) :
    3 ≤ (((pySplit '.' stem).drop 1).dropLast).length := by
  rw [List.length_dropLast, List.length_drop]
  omega

theorem storeSpec_ref {stem : String} {segs : List String} {ref : String}
    {dir : Bool} (h : storeSpec stem = some (segs, ref, dir)) :
    ref = "reference/" ++ stem ∧
      ((pySplit '.' stem).length = 1 ∧ segs = [] ∨
        segs = ((pySplit '.' stem).drop 1).dropLast) := by
  unfold storeSpec at h
  by_cases h1 : pyStartsWith stem "camel."
  · rw [if_pos h1] at h
    dsimp only at h
    by_cases h2 : (pySplit '.' stem).length == 1
    · rw [if_pos h2] at h
      simp only [Option.some.injEq, Prod.mk.injEq] at h
      exact ⟨h.2.1.symm, Or.inl ⟨beq_iff_eq.mp h2, h.1.symm⟩⟩
    · rw [if_neg h2] at h
      simp only [Option.some.injEq, Prod.mk.injEq] at h
      exact ⟨h.2.1.symm, Or.inr h.1.symm⟩
  · rw [if_neg h1] at h
    cases h

theorem ref_inj {a b : String} (h : "reference/" ++ a = "reference/" ++ b) :
    a = b := by
  have hd := congrArg String.data h
  rw [String.data_append, String.data_append] at hd
  exact String.ext (List.append_cancel_left hd)

theorem ref_mem_addFile (t : MTree) {stem : String} {segs : List String}
    {ref : String} {dir : Bool}
    (hs : storeSpec stem = some (segs, ref, dir)) :
    ref ∈ pagesAt (addFile t stem) segs := by
  rw [pagesAt_addFile, hs]
  dsimp only
  rw [if_pos rfl]
  cases dir with
  | true => exact List.mem_cons_self ref _
  | false => exact List.mem_append.mpr (Or.inr (List.mem_singleton.mpr rfl))

theorem pagesAt_mono (t : MTree) (stem : String) (p : List String) {r : String}
    (hr : r ∈ pagesAt t p) : r ∈ pagesAt (addFile t stem) p := by
  rw [pagesAt_addFile]
  cases storeSpec stem with
  | none => exact hr
  | some v =>
      obtain ⟨segs, ref, dir⟩ := v
      dsimp only
      by_cases hp : p = segs
      · rw [if_pos hp]
        cases dir with
        | true => exact List.mem_cons_of_mem _ hr
        | false => exact List.mem_append.mpr (Or.inl hr)
      · rw [if_neg hp]
        exact hr

theorem pagesAt_foldl_mono (l : List String) (t : MTree) (p : List String)
    {r : String} (hr : r ∈ pagesAt t p) :
    r ∈ pagesAt (l.foldl addFile t) p := by
  induction l generalizing t with
  | nil => exact hr
  | cons x xs ih =>
      rw [List.foldl_cons]
      exact ih (addFile t x) (pagesAt_mono t x p hr)

theorem ref_mem_foldl (l : List String) (t : MTree) {stem : String}
    (hmem : stem ∈ l) {segs : List String} {ref : String} {dir : Bool}
    (hs : storeSpec stem = some (segs, ref, dir)) :
    ref ∈ pagesAt (l.foldl addFile t) segs := by
  induction l generalizing t with
  | nil => cases hmem
  | cons x xs ih =>
      rw [List.foldl_cons]
      rcases List.mem_cons.mp hmem with heq | htl
      · subst heq
        exact pagesAt_foldl_mono xs (addFile t stem) segs (ref_mem_addFile t hs)
      · exact ih (addFile t x) htl

theorem pagesAt_foldl_origin (l : List String) (t : MTree) (p : List String)
    {r : String} :
    r ∈ pagesAt (l.foldl addFile t) p →
      r ∈ pagesAt t p ∨ ∃ stem ∈ l, ∃ dir, storeSpec stem = some (p, r, dir) := by
  induction l generalizing t with
  | nil => intro h; exact Or.inl h
  | cons x xs ih =>
      intro h
      rw [List.foldl_cons] at h
      rcases ih (addFile t x) h with h1 | ⟨stem, hstem, dir, hsp⟩
      · rw [pagesAt_addFile] at h1
        cases hsx : storeSpec x with
        | none =>
            rw [hsx] at h1
            exact Or.inl h1
        | some v =>
            obtain ⟨segs, ref, dir⟩ := v
            rw [hsx] at h1
            dsimp only at h1
            by_cases hp : p = segs
            · rw [if_pos hp] at h1
              cases dir with
              | true =>
                  rcases List.mem_cons.mp h1 with heq | hin
                  · subst heq
                    subst hp
                    exact Or.inr ⟨x, List.mem_cons_self x xs, true, hsx⟩
                  · exact Or.inl hin
              | false =>
                  rcases List.mem_append.mp h1 with hin | heq
                  · exact Or.inl hin
                  · rw [List.mem_singleton] at heq
                    subst heq
                    subst hp
                    exact Or.inr ⟨x, List.mem_cons_self x xs, false, hsx⟩
            · rw [if_neg hp] at h1
              exact Or.inl h1
      · exact Or.inr ⟨stem, List.mem_cons_of_mem _ hstem, dir, hsp⟩

theorem pagesAt_build_origin (l : List String) (p : List String) {r : String}
    (h : r ∈ pagesAt (build_module_tree l) p) :
    ∃ stem ∈ l, ∃ dir, storeSpec stem = some (p, r, dir) := by
  rcases pagesAt_foldl_origin l emptyNode p h with h1 | h2
  · rw [pagesAt_emptyNode] at h1
    cases h1
  · exact h2

theorem remove_nil (broken : List String) :
    remove_from_groups broken [] = ([], [], []) := by
  simp [remove_from_groups]

theorem remove_page_fst (broken : List String) (s : String)
    (rest : List NavItem) :
    (remove_from_groups broken (NavItem.page s :: rest)).1 =
      if broken.contains s then (remove_from_groups broken rest).1
      else NavItem.page s :: (remove_from_groups broken rest).1 := by
  simp only [remove_from_groups]
  split <;> rfl

theorem remove_page_removed (broken : List String) (s : String)
    (rest : List NavItem) :
    (remove_from_groups broken (NavItem.page s :: rest)).2.1 =
      if broken.contains s then s :: (remove_from_groups broken rest).2.1
      else (remove_from_groups broken rest).2.1 := by
  simp only [remove_from_groups]
  split <;> rfl

theorem remove_group_fst (broken : List String) (n : Option String)
    (ps gs : Option (List NavItem)) (rest : List NavItem) :
    (remove_from_groups broken (NavItem.group n ps gs :: rest)).1 =
      if truthyList (ps.map (fun l => (remove_from_groups broken l).1)) ||
          truthyList (gs.map (fun l => (remove_from_groups broken l).1)) then
        NavItem.group n (ps.map (fun l => (remove_from_groups broken l).1))
            (gs.map (fun l => (remove_from_groups broken l).1)) ::
          (remove_from_groups broken rest).1
      else (remove_from_groups broken rest).1 := by
  rw [remove_from_groups.eq_def]
  cases ps <;> cases gs <;> dsimp only [Option.map, Option.elim] <;> split <;> rfl

theorem remove_group_removed (broken : List String) (n : Option String)
    (ps gs : Option (List NavItem)) (rest : List NavItem) :
    (remove_from_groups broken (NavItem.group n ps gs :: rest)).2.1 =
      (ps.elim [] (fun l => (remove_from_groups broken l).2.1)) ++
        (gs.elim [] (fun l => (remove_from_groups broken l).2.1)) ++
        (remove_from_groups broken rest).2.1 := by
  rw [remove_from_groups.eq_def]
  cases ps <;> cases gs <;> dsimp only [Option.map, Option.elim] <;> split <;> rfl

theorem remove_group_log (broken : List String) (n : Option String)
    (ps gs : Option (List NavItem)) (rest : List NavItem) :
    (remove_from_groups broken (NavItem.group n ps gs :: rest)).2.2 =
      (ps.elim [] (fun l => (remove_from_groups broken l).2.2)) ++
        (gs.elim [] (fun l => (remove_from_groups broken l).2.2)) ++
        (if truthyList (ps.map (fun l => (remove_from_groups broken l).1)) ||
            truthyList (gs.map (fun l => (remove_from_groups broken l).1)) then
          (remove_from_groups broken rest).2.2
        else ("  Removed empty group: " ++ n.getD "Unknown") ::
          (remove_from_groups broken rest).2.2) := by
  rw [remove_from_groups.eq_def]
  cases ps <;> cases gs <;> dsimp only [Option.map, Option.elim] <;> split <;> rfl

theorem remove_page_eq (broken : List String) (s : String)
    (rest : List NavItem) :
    remove_from_groups broken (NavItem.page s :: rest) =
      if broken.contains s then
        ((remove_from_groups broken rest).1,
         s :: (remove_from_groups broken rest).2.1,
         ("  Removed page: " ++ s) :: (remove_from_groups broken rest).2.2)
      else
        (NavItem.page s :: (remove_from_groups broken rest).1,
         (remove_from_groups broken rest).2.1,
         (remove_from_groups broken rest).2.2) := by
  rw [remove_from_groups.eq_def]

theorem remove_group_eq (broken : List String) (n : Option String)
    (ps gs : Option (List NavItem)) (rest : List NavItem) :
    remove_from_groups broken (NavItem.group n ps gs :: rest) =
      if truthyList (ps.map (fun l => (remove_from_groups broken l).1)) ||
          truthyList (gs.map (fun l => (remove_from_groups broken l).1)) then
        (NavItem.group n (ps.map (fun l => (remove_from_groups broken l).1))
            (gs.map (fun l => (remove_from_groups broken l).1)) ::
          (remove_from_groups broken rest).1,
         (ps.elim [] (fun l => (remove_from_groups broken l).2.1)) ++
           (gs.elim [] (fun l => (remove_from_groups broken l).2.1)) ++
           (remove_from_groups broken rest).2.1,
         (ps.elim [] (fun l => (remove_from_groups broken l).2.2)) ++
           (gs.elim [] (fun l => (remove_from_groups broken l).2.2)) ++
           (remove_from_groups broken rest).2.2)
      else
        ((remove_from_groups broken rest).1,
         (ps.elim [] (fun l => (remove_from_groups broken l).2.1)) ++
           (gs.elim [] (fun l => (remove_from_groups broken l).2.1)) ++
           (remove_from_groups broken rest).2.1,
         (ps.elim [] (fun l => (remove_from_groups broken l).2.2)) ++
           (gs.elim [] (fun l => (remove_from_groups broken l).2.2)) ++
           (("  Removed empty group: " ++ n.getD "Unknown") ::
             (remove_from_groups broken rest).2.2)) := by
  rw [remove_from_groups.eq_def]
  cases ps <;> cases gs <;> dsimp only [Option.map, Option.elim] <;> rfl

theorem remove_removed_subset (broken : List String) :
    ∀ (nav : List NavItem), ∀ s ∈ (remove_from_groups broken nav).2.1,
      s ∈ broken
  | [] => by
      intro s h
      rw [remove_nil] at h
      cases h
  | NavItem.page s0 :: rest => by
      intro s h
      rw [remove_page_removed] at h
      by_cases hb : broken.contains s0
      · rw [if_pos hb] at h
        rcases List.mem_cons.mp h with heq | htl
        · subst heq
          exact List.elem_iff.mp hb
        · exact remove_removed_subset broken rest s htl
      · rw [if_neg hb] at h
        exact remove_removed_subset broken rest s h
  | NavItem.group n ps gs :: rest => by
      intro s h
      rw [remove_group_removed] at h
      rcases List.mem_append.mp h with h1 | hrest
      · rcases List.mem_append.mp h1 with hp | hg
        · cases ps with
          | none => simp [Option.elim] at hp
          | some l =>
              exact remove_removed_subset broken l s
                (by simpa [Option.elim] using hp)
        · cases gs with
          | none => simp [Option.elim] at hg
          | some l =>
              exact remove_removed_subset broken l s
                (by simpa [Option.elim] using hg)
      · exact remove_removed_subset broken rest s hrest

theorem remove_page_kept_iff (broken : List String) (nav : List NavItem) :
    (∀ s, s ∈ broken → NavItem.page s ∉ (remove_from_groups broken nav).1) ∧
    (∀ s, NavItem.page s ∈ nav → s ∈ broken →
      s ∈ (remove_from_groups broken nav).2.1) ∧
    (∀ s, s ∉ broken →
      (NavItem.page s ∈ (remove_from_groups broken nav).1 ↔
        NavItem.page s ∈ nav)) := by
  induction nav with
  | nil =>
      refine ⟨fun s _ h => ?_, fun s h => ?_, fun s _ => ?_⟩
      · rw [remove_nil] at h; cases h
      · cases h
      · rw [remove_nil]
  | cons item rest ih =>
      obtain ⟨ih1, ih2, ih3⟩ := ih
      cases item with
      | page s0 =>
          by_cases hb : broken.contains s0
          · have hb' : s0 ∈ broken := List.elem_iff.mp hb
            refine ⟨fun s hs h => ?_, fun s hmem hs => ?_, fun s hs => ?_⟩
            · rw [remove_page_fst, if_pos hb] at h
              exact ih1 s hs h
            · rw [remove_page_removed, if_pos hb]
              rcases List.mem_cons.mp hmem with heq | htl
              · have h0 := NavItem.page.inj heq
                exact h0 ▸ List.mem_cons_self _ _
              · exact List.mem_cons_of_mem _ (ih2 s htl hs)
            · rw [remove_page_fst, if_pos hb]
              rw [ih3 s hs]
              constructor
              · exact fun h => List.mem_cons_of_mem _ h
              · intro h
                rcases List.mem_cons.mp h with heq | htl
                · have h0 := NavItem.page.inj heq
                  exact absurd (h0 ▸ hb') hs
                · exact htl
          · have hb' : s0 ∉ broken := fun h => hb (List.elem_iff.mpr h)
            refine ⟨fun s hs h => ?_, fun s hmem hs => ?_, fun s hs => ?_⟩
            · rw [remove_page_fst, if_neg hb] at h
              rcases List.mem_cons.mp h with heq | htl
              · have h0 := NavItem.page.inj heq
                exact hb' (h0 ▸ hs)
              · exact ih1 s hs htl
            · rw [remove_page_removed, if_neg hb]
              rcases List.mem_cons.mp hmem with heq | htl
              · have h0 := NavItem.page.inj heq
                exact absurd (h0 ▸ hs) hb'
              · exact ih2 s htl hs
            · rw [remove_page_fst, if_neg hb]
              constructor
              · intro h
                rcases List.mem_cons.mp h with heq | htl
                · exact heq ▸ List.mem_cons_self _ _
                · exact List.mem_cons_of_mem _ ((ih3 s hs).mp htl)
              · intro h
                rcases List.mem_cons.mp h with heq | htl
                · exact heq ▸ List.mem_cons_self _ _
                · exact List.mem_cons_of_mem _ ((ih3 s hs).mpr htl)
      | group n ps gs =>
          refine ⟨fun s hs h => ?_, fun s hmem hs => ?_, fun s hs => ?_⟩
          · rw [remove_group_fst] at h
            split at h
            · rcases List.mem_cons.mp h with heq | htl
              · cases heq
              · exact ih1 s hs htl
            · exact ih1 s hs h
          · rcases List.mem_cons.mp hmem with heq | htl
            · cases heq
            · rw [remove_group_removed]
              exact List.mem_append.mpr (Or.inr (ih2 s htl hs))
          · rw [remove_group_fst]
            have hmr : NavItem.page s ∈ NavItem.group n ps gs :: rest ↔
                NavItem.page s ∈ rest := by
              constructor
              · intro h
                rcases List.mem_cons.mp h with heq | htl
                · cases heq
                · exact htl
              · exact fun h => List.mem_cons_of_mem _ h
            rw [hmr]
            split
            · constructor
              · intro h
                rcases List.mem_cons.mp h with heq | htl
                · cases heq
                · exact (ih3 s hs).mp htl
              · exact fun h => List.mem_cons_of_mem _ ((ih3 s hs).mpr h)
            · exact ih3 s hs

/-- The top-level identity of a navigation item: a page keeps its path, a
group keeps only its name. Used to state order preservation. -/
def NavItem.skeleton : NavItem → NavItem
  | .page s => .page s
  | .group n _ _ => .group n none none

theorem remove_skeleton_sublist (broken : List String) (nav : List NavItem) :
    ((remove_from_groups broken nav).1.map NavItem.skeleton).Sublist
      (nav.map NavItem.skeleton) := by
  induction nav with
  | nil => rw [remove_nil]
  | cons item rest ih =>
      cases item with
      | page s0 =>
          rw [remove_page_fst]
          by_cases hb : broken.contains s0
          · rw [if_pos hb, List.map_cons]
            exact ih.cons _
          · rw [if_neg hb, List.map_cons, List.map_cons]
            exact ih.cons₂ _
      | group n ps gs =>
          rw [remove_group_fst]
          split
          · rw [List.map_cons, List.map_cons]
            exact ih.cons₂ _
          · rw [List.map_cons]
            exact ih.cons _

theorem remove_group_kept (broken : List String) (nav : List NavItem) :
    ∀ n ps gs, NavItem.group n ps gs ∈ nav →
      (truthyList (ps.map (fun l => (remove_from_groups broken l).1)) ||
        truthyList (gs.map (fun l => (remove_from_groups broken l).1))) = true →
      NavItem.group n (ps.map (fun l => (remove_from_groups broken l).1))
          (gs.map (fun l => (remove_from_groups broken l).1)) ∈
        (remove_from_groups broken nav).1 := by
  induction nav with
  | nil => intro n ps gs h; cases h
  | cons item rest ih =>
      intro n ps gs hmem hcond
      cases item with
      | page s0 =>
          have htl : NavItem.group n ps gs ∈ rest := by
            rcases List.mem_cons.mp hmem with heq | htl
            · cases heq
            · exact htl
          rw [remove_page_fst]
          by_cases hb : broken.contains s0
          · rw [if_pos hb]
            exact ih n ps gs htl hcond
          · rw [if_neg hb]
            exact List.mem_cons_of_mem _ (ih n ps gs htl hcond)
      | group n0 ps0 gs0 =>
          rcases List.mem_cons.mp hmem with heq | htl
          · obtain ⟨h1, h2, h3⟩ := NavItem.group.inj heq
            subst h1; subst h2; subst h3
            rw [remove_group_fst, if_pos hcond]
            exact List.mem_cons_self _ _
          · rw [remove_group_fst]
            split
            · exact List.mem_cons_of_mem _ (ih n ps gs htl hcond)
            · exact ih n ps gs htl hcond

theorem remove_group_dropped_log (broken : List String) (nav : List NavItem) :
    ∀ n ps gs, NavItem.group n ps gs ∈ nav →
      (truthyList (ps.map (fun l => (remove_from_groups broken l).1)) ||
        truthyList (gs.map (fun l => (remove_from_groups broken l).1))) = false →
      ("  Removed empty group: " ++ n.getD "Unknown") ∈
        (remove_from_groups broken nav).2.2 := by
  induction nav with
  | nil => intro n ps gs h; cases h
  | cons item rest ih =>
      intro n ps gs hmem hcond
      cases item with
      | page s0 =>
          have htl : NavItem.group n ps gs ∈ rest := by
            rcases List.mem_cons.mp hmem with heq | htl
            · cases heq
            · exact htl
          rw [remove_page_eq]
          split
          · exact List.mem_cons_of_mem _ (ih n ps gs htl hcond)
          · exact ih n ps gs htl hcond
      | group n0 ps0 gs0 =>
          rcases List.mem_cons.mp hmem with heq | htl
          · obtain ⟨h1, h2, h3⟩ := NavItem.group.inj heq
            subst h1; subst h2; subst h3
            rw [remove_group_log, if_neg (by rw [hcond]; exact Bool.false_ne_true)]
            exact List.mem_append.mpr (Or.inr (List.mem_cons_self _ _))
          · rw [remove_group_log]
            refine List.mem_append.mpr (Or.inr ?_)
            split
            · exact ih n ps gs htl hcond
            · exact List.mem_cons_of_mem _ (ih n ps gs htl hcond)

theorem remove_survivor_groups_truthy (broken : List String)
    (nav : List NavItem) :
    ∀ n ps gs, NavItem.group n ps gs ∈ (remove_from_groups broken nav).1 →
      (truthyList ps || truthyList gs) = true := by
  induction nav with
  | nil =>
      intro n ps gs h
      rw [remove_nil] at h
      cases h
  | cons item rest ih =>
      intro n ps gs hmem
      cases item with
      | page s0 =>
          rw [remove_page_fst] at hmem
          split at hmem
          · exact ih n ps gs hmem
          · rcases List.mem_cons.mp hmem with heq | htl
            · cases heq
            · exact ih n ps gs htl
      | group n0 ps0 gs0 =>
          rw [remove_group_fst] at hmem
          split at hmem
          · rcases List.mem_cons.mp hmem with heq | htl
            · obtain ⟨h1, h2, h3⟩ := NavItem.group.inj heq
              subst h2; subst h3
              next hcond => exact hcond
            · exact ih n ps gs htl
          · exact ih n ps gs hmem

theorem remove_idem (broken : List String) :
    ∀ (nav : List NavItem),
      remove_from_groups broken ((remove_from_groups broken nav).1) =
        ((remove_from_groups broken nav).1, [], [])
  | [] => by rw [remove_nil]; exact remove_nil broken
  | NavItem.page s0 :: rest => by
      rw [remove_page_fst]
      by_cases hb : broken.contains s0
      · rw [if_pos hb]
        exact remove_idem broken rest
      · rw [if_neg hb, remove_page_eq, if_neg hb, remove_idem broken rest]
  | NavItem.group n ps gs :: rest => by
      rw [remove_group_fst]
      by_cases hc : (truthyList (ps.map (fun l =>
            (remove_from_groups broken l).1)) ||
          truthyList (gs.map (fun l => (remove_from_groups broken l).1))) = true
      · rw [if_pos hc, remove_group_eq]
        have hrest := remove_idem broken rest
        cases ps with
        | none =>
            cases gs with
            | none => simp [truthyList] at hc
            | some lg =>
                have hg := remove_idem broken lg
                simp only [Option.map, Option.elim] at hc ⊢
                rw [hg, hrest]
                simp [hc]
        | some lp =>
            have hp := remove_idem broken lp
            cases gs with
            | none =>
                simp only [Option.map, Option.elim] at hc ⊢
                rw [hp, hrest]
                simp [hc]
            | some lg =>
                have hg := remove_idem broken lg
                simp only [Option.map, Option.elim] at hc ⊢
                rw [hp, hg, hrest]
                simp [hc]
      · rw [if_neg hc]
        exact remove_idem broken rest

theorem objGet_objSet_same (l : List (String × Json)) (k : String) (v : Json) :
    objGet (objSet l k v) k = some v := by
  induction l with
  | nil => simp [objSet, objGet]
  | cons hd tl ih =>
      obtain ⟨k', v'⟩ := hd
      by_cases h : k' = k
      · simp [objSet, objGet, beq_iff_eq, h]
      · simp [objSet, objGet, beq_iff_eq, h, ih]

theorem objGet_objSet_other (l : List (String × Json)) (k : String) (v : Json)
    (q : String) (h : q ≠ k) :
    objGet (objSet l k v) q = objGet l q := by
  induction l with
  | nil =>
      have hne : ¬ k = q := fun hh => h hh.symm
      simp [objSet, objGet, beq_iff_eq, hne]
  | cons hd tl ih =>
      obtain ⟨k', v'⟩ := hd
      by_cases h1 : k' = k
      · subst h1
        have hne : ¬ k' = q := fun hh => h hh.symm
        simp [objSet, objGet, beq_iff_eq, hne]
      · by_cases h2 : k' = q
        · subst h2
          have hq : ¬ k' = k := h1
          simp [objSet, objGet, beq_iff_eq, hq]
        · simp [objSet, objGet, beq_iff_eq, h1, h2, ih]

theorem objGet_mem_keys {l : List (String × Json)} {k : String} {v : Json}
    (h : objGet l k = some v) : k ∈ l.map Prod.fst := by
  induction l with
  | nil => cases h
  | cons hd tl ih =>
      obtain ⟨k', v'⟩ := hd
      by_cases h1 : k' = k
      · subst h1
        exact List.mem_cons_self _ _
      · rw [objGet, if_neg (by simpa [beq_iff_eq] using h1)] at h
        exact List.mem_cons_of_mem _ (ih h)

theorem keys_objSet_mem (l : List (String × Json)) (k : String) (v : Json)
    (h : k ∈ l.map Prod.fst) :
    (objSet l k v).map Prod.fst = l.map Prod.fst := by
  induction l with
  | nil => cases h
  | cons hd tl ih =>
      obtain ⟨k', v'⟩ := hd
      by_cases h1 : k' = k
      · simp [objSet, beq_iff_eq, h1]
      · rcases List.mem_cons.mp h with heq | htl
        · exact absurd heq.symm h1
        · simp [objSet, beq_iff_eq, h1, ih htl]

theorem objSet_self {l : List (String × Json)} {k : String} {v : Json}
    (h : objGet l k = some v) : objSet l k v = l := by
  induction l with
  | nil => cases h
  | cons hd tl ih =>
      obtain ⟨k', v'⟩ := hd
      by_cases h1 : k' = k
      · subst h1
        rw [objGet, if_pos (by simp)] at h
        obtain h2 := Option.some.inj h
        simp [objSet, h2]
      · rw [objGet, if_neg (by simpa [beq_iff_eq] using h1)] at h
        simp [objSet, beq_iff_eq, h1, ih h]

theorem setAPIRefPages_none (groups : List Json) (nav : Json)
    (h : ∀ g ∈ groups, ∃ gf, g = Json.obj gf ∧
      jsonIsStr (objGet gf "group") "API Reference" = false) :
    setAPIRefPages groups nav = some groups := by
  induction groups with
  | nil => rfl
  | cons g rest ih =>
      obtain ⟨gf, hg, hfalse⟩ := h g (List.mem_cons_self _ _)
      subst hg
      rw [setAPIRefPages, if_neg (by simp [hfalse]),
        ih (fun g hg => h g (List.mem_cons_of_mem _ hg))]
      rfl

theorem setAPIRefPages_found (pre : List Json) (gf : List (String × Json))
    (post : List Json) (nav : Json)
    (hpre : ∀ g ∈ pre, ∃ f, g = Json.obj f ∧
      jsonIsStr (objGet f "group") "API Reference" = false)
    (hm : jsonIsStr (objGet gf "group") "API Reference" = true) :
    setAPIRefPages (pre ++ Json.obj gf :: post) nav =
      some (pre ++ Json.obj (objSet gf "pages" nav) :: post) := by
  induction pre with
  | nil =>
      rw [List.nil_append, setAPIRefPages, if_pos hm]
      rfl
  | cons g rest ih =>
      obtain ⟨f, hg, hfalse⟩ := hpre g (List.mem_cons_self _ _)
      subst hg
      rw [List.cons_append, setAPIRefPages, if_neg (by simp [hfalse]),
        ih (fun g hg => hpre g (List.mem_cons_of_mem _ hg))]
      rfl

theorem setAPIRefTabGroups_none (tabs : List Json) (nav : Json)
    (h : ∀ tb ∈ tabs, ∃ tf, tb = Json.obj tf ∧
      jsonIsStr (objGet tf "tab") "API Reference" = false) :
    setAPIRefTabGroups tabs nav = some tabs := by
  induction tabs with
  | nil => rfl
  | cons tb rest ih =>
      obtain ⟨tf, ht, hfalse⟩ := h tb (List.mem_cons_self _ _)
      subst ht
      rw [setAPIRefTabGroups, if_neg (by simp [hfalse]),
        ih (fun tb ht => h tb (List.mem_cons_of_mem _ ht))]
      rfl

theorem setAPIRefTabGroups_found (pre : List Json)
    (tf : List (String × Json)) (post : List Json) (nav : Json)
    (hpre : ∀ tb ∈ pre, ∃ f, tb = Json.obj f ∧
      jsonIsStr (objGet f "tab") "API Reference" = false)
    (hm : jsonIsStr (objGet tf "tab") "API Reference" = true) :
    setAPIRefTabGroups (pre ++ Json.obj tf :: post) nav =
      some (pre ++ Json.obj (objSet tf "groups" nav) :: post) := by
  induction pre with
  | nil =>
      rw [List.nil_append, setAPIRefTabGroups, if_pos hm]
      rfl
  | cons tb rest ih =>
      obtain ⟨f, ht, hfalse⟩ := hpre tb (List.mem_cons_self _ _)
      subst ht
      rw [List.cons_append, setAPIRefTabGroups, if_neg (by simp [hfalse]),
        ih (fun tb ht => hpre tb (List.mem_cons_of_mem _ ht))]
      rfl

theorem build_ref_depth (l : List String) (p : List String) {r : String}
    (hr : r ∈ pagesAt (build_module_tree l) p) :
    ∃ stem ∈ l, r = "reference/" ++ stem ∧
      ((pySplit '.' stem).length = 1 ∧ p = [] ∨
        p = ((pySplit '.' stem).drop 1).dropLast) := by
  obtain ⟨stem, hstem, dir, hsp⟩ := pagesAt_build_origin l p hr
  obtain ⟨href, hsegs⟩ := storeSpec_ref hsp
  exact ⟨stem, hstem, href, hsegs⟩

theorem long_ref_not_at_shallow (l : List String) {id : String}
    (hlen : 5 ≤ (pySplit '.' id).length) (p : List String)
    (hp : p.length ≤ 2)
    (hr : ("reference/" ++ id) ∈ pagesAt (build_module_tree l) p) : False := by
  obtain ⟨stem, hstem, href, hsegs⟩ := build_ref_depth l p hr
  have hid : id = stem := ref_inj href
  subst hid
  rcases hsegs with ⟨h1, -⟩ | hdeep
  · omega
  · have hlp : p.length = (pySplit '.' id).length - 1 - 1 := by
      rw [hdeep, List.length_dropLast, List.length_drop]
    omega

theorem foldl_convertStep_top (t : MTree) (mo : List String) :
    ∀ nav, (∀ e ∈ nav, e = NavEntry.page "reference/camel" ∨
        ∃ dn ps, e = NavEntry.group dn ps) →
      ∀ e ∈ mo.foldl (convertStep t) nav,
        e = NavEntry.page "reference/camel" ∨ ∃ dn ps, e = NavEntry.group dn ps := by
  induction mo with
  | nil => intro nav hnav; simpa using hnav
  | cons m rest ih =>
      intro nav hnav
      rw [List.foldl_cons]
      apply ih
      intro e he
      rcases convertStep_mem t nav m e he with h | ⟨dn', ps', hge⟩
      · exact hnav e h
      · exact Or.inr ⟨dn', _, hge⟩

theorem foldl_convertStep_build_top (t : MTree) (mo : List String) :
    ∀ nav, (∀ e ∈ nav, e = NavEntry.page "reference/camel" ∨
        ∃ dn ps, e = NavEntry.group dn ps) →
      ∀ e ∈ mo.foldl (convertStep_build t) nav,
        e = NavEntry.page "reference/camel" ∨ ∃ dn ps, e = NavEntry.group dn ps := by
  induction mo with
  | nil => intro nav hnav; simpa using hnav
  | cons m rest ih =>
      intro nav hnav
      rw [List.foldl_cons]
      apply ih
      intro e he
      rcases convertStep_build_mem t nav m e he with h | ⟨dn', ps', hge⟩
      · exact hnav e h
      · exact Or.inr ⟨dn', _, hge⟩

theorem camelHead_top (t : MTree) :
    ∀ e ∈ camelHead t, e = NavEntry.page "reference/camel" ∨
      ∃ dn ps, e = NavEntry.group dn ps := by
  intro e he
  unfold camelHead at he
  split at he
  · simp only [List.mem_singleton] at he
    exact Or.inl he
  · cases he

theorem convert_top (t : MTree) :
    ∀ e ∈ convert_tree_to_navigation t,
      e = NavEntry.page "reference/camel" ∨ ∃ dn ps, e = NavEntry.group dn ps :=
  foldl_convertStep_top t MODULE_ORDER (camelHead t) (camelHead_top t)

theorem convert_build_top (t : MTree) :
    ∀ e ∈ convert_tree_to_navigation_build t,
      e = NavEntry.page "reference/camel" ∨ ∃ dn ps, e = NavEntry.group dn ps :=
  foldl_convertStep_build_top t MODULE_ORDER_build (camelHead t) (camelHead_top t)

theorem convertCat_pages_src (t : MTree) (m : String) {e : NavEntry}
    (he : e ∈ convertCat t m) :
    ∀ dn ps, e = NavEntry.group dn ps → ∀ x ∈ ps, ∃ r, x = NavEntry.page r ∧
      (r ∈ pagesAt t [m] ∨ ∃ k, r ∈ pagesAt t [m, k]) := by
  intro dn ps hge x hx
  unfold convertCat at he
  split at he
  · cases he
  · subst hge
    cases hl : lookupChild t.children m with
    | none => rw [hl] at he; cases he
    | some sub =>
        rw [hl] at he
        dsimp only at he
        split at he
        · cases he
        · simp only [List.mem_singleton] at he
          obtain ⟨-, h2⟩ := NavEntry.group.injEq .. ▸ he
          rw [h2] at hx
          obtain ⟨r, hrmem, hreq⟩ := List.mem_map.mp hx
          refine ⟨r, hreq.symm, ?_⟩
          rw [specGroupPages_canon t m sub hl] at hrmem
          rcases List.mem_append.mp hrmem with h1 | h1
          · exact Or.inl (mem_sortStr.mp h1)
          · obtain ⟨k, -, hk2⟩ := List.mem_flatMap.mp h1
            exact Or.inr ⟨k, mem_sortStr.mp hk2⟩

theorem convertCat_build_pages_src (t : MTree) (m : String) {e : NavEntry}
    (he : e ∈ convertCat_build t m) :
    ∀ dn ps, e = NavEntry.group dn ps → ∀ x ∈ ps, ∃ r, x = NavEntry.page r ∧
      (r ∈ pagesAt t [m] ∨ ∃ k, r ∈ pagesAt t [m, k]) := by
  intro dn ps hge x hx
  unfold convertCat_build at he
  subst hge
  cases hl : lookupChild t.children m with
  | none => rw [hl] at he; cases he
  | some sub =>
      rw [hl] at he
      dsimp only at he
      split at he
      · cases he
      · simp only [List.mem_singleton] at he
        obtain ⟨-, h2⟩ := NavEntry.group.injEq .. ▸ he
        rw [h2] at hx
        obtain ⟨r, hrmem, hreq⟩ := List.mem_map.mp hx
        refine ⟨r, hreq.symm, ?_⟩
        rw [specGroupPages_canon t m sub hl] at hrmem
        rcases List.mem_append.mp hrmem with h1 | h1
        · exact Or.inl (mem_sortStr.mp h1)
        · obtain ⟨k, -, hk2⟩ := List.mem_flatMap.mp h1
          exact Or.inr ⟨k, mem_sortStr.mp hk2⟩

/-- C1 (code bug): the claim says an input set containing the bare root
identifier `"camel"` gets it appended to the root node's `ownPages` and
emitted first as the bare page `"reference/camel"`. The code's
`module_path.startswith("camel.")` filter rejects `"camel"` itself, so the
single-segment branch (line 113) and the renderer's root-page check
(line 143) are unreachable: the tree stays empty and `"reference/camel"` is
never emitted, alone or alongside other identifiers. -/
theorem claim_C1_eval :
    build_module_tree ["camel"] = emptyNode ∧
    convert_tree_to_navigation (build_module_tree ["camel"]) = [] ∧
    convert_tree_to_navigation
        (build_module_tree ["camel", "camel.agents.base"]) =
      [NavEntry.group "Agents" [NavEntry.page "reference/camel.agents.base"]] :=
  ⟨rfl, rfl, rfl⟩

/-- C2 counterexample: on a document whose navigation has no
`"API Reference"` group, `update_mint_json` does not fail — it returns the
document unchanged (the Python then writes it back and returns `True`).
No `ConfigStructureError` exists anywhere in the sources. -/
theorem claim_C2_counterexample :
    update_mint_json
        (Json.obj [("navigation", Json.arr [Json.obj
            [("group", Json.str "Home"), ("pages", Json.arr [Json.str "index"])]]),
          ("theme", Json.str "dark")])
        (Json.arr []) =
      some (Json.obj [("navigation", Json.arr [Json.obj
            [("group", Json.str "Home"), ("pages", Json.arr [Json.str "index"])]]),
          ("theme", Json.str "dark")]) ∧
    update_mint_json
        (Json.obj [("navigation", Json.arr [Json.obj
            [("group", Json.str "Home"), ("pages", Json.arr [Json.str "index"])]]),
          ("theme", Json.str "dark")])
        (Json.arr []) ≠ none := by
  refine ⟨rfl, ?_⟩
  intro h
  rw [show update_mint_json
        (Json.obj [("navigation", Json.arr [Json.obj
            [("group", Json.str "Home"), ("pages", Json.arr [Json.str "index"])]]),
          ("theme", Json.str "dark")])
        (Json.arr []) =
      some (Json.obj [("navigation", Json.arr [Json.obj
            [("group", Json.str "Home"), ("pages", Json.arr [Json.str "index"])]]),
          ("theme", Json.str "dark")]) from rfl] at h
  cases h

/-- C2 amended: when the addressed sub-structure (the `"API Reference"`
group in `organize_modules.py`, the `"API Reference"` tab in
`build_api_docs.py`) does not exist, the merge completes without error and
writes the document back unchanged; it never creates a new top-level
section, but it does not fail with any error either (no
`ConfigStructureError` exists in the code). -/
theorem claim_C2_amended :
    (∀ (fields : List (String × Json)) (groups : List Json) (navigation : Json),
      objGet fields "navigation" = some (Json.arr groups) →
      (∀ g ∈ groups, ∃ gf, g = Json.obj gf ∧
        jsonIsStr (objGet gf "group") "API Reference" = false) →
      update_mint_json (Json.obj fields) navigation = some (Json.obj fields)) ∧
    (∀ (fields : List (String × Json)) (navigation : Json),
      objGet fields "navigation" = none →
      update_mint_json (Json.obj fields) navigation = some (Json.obj fields)) ∧
    (∀ (fields navFields : List (String × Json)) (tabs : List Json)
        (navigation : Json),
      objGet fields "navigation" = some (Json.obj navFields) →
      objGet navFields "tabs" = some (Json.arr tabs) →
      (∀ tb ∈ tabs, ∃ tf, tb = Json.obj tf ∧
        jsonIsStr (objGet tf "tab") "API Reference" = false) →
      update_mint_json_build (Json.obj fields) navigation =
        some (Json.obj fields)) ∧
    (∀ (fields navFields : List (String × Json)) (navigation : Json),
      objGet fields "navigation" = some (Json.obj navFields) →
      objGet navFields "tabs" = none →
      update_mint_json_build (Json.obj fields) navigation =
        some (Json.obj fields)) := by
  refine ⟨?_, ?_, ?_, ?_⟩
  · intro fields groups navigation hnav hno
    unfold update_mint_json
    dsimp only
    rw [hnav]
    dsimp only
    rw [setAPIRefPages_none groups navigation hno]
    simp only [Option.map]
    rw [objSet_self hnav]
  · intro fields navigation hnav
    unfold update_mint_json
    dsimp only
    rw [hnav]
  · intro fields navFields tabs navigation hnav htabs hno
    unfold update_mint_json_build
    dsimp only
    rw [hnav]
    dsimp only
    rw [htabs]
    dsimp only
    rw [setAPIRefTabGroups_none tabs navigation hno]
    simp only [Option.map]
    rw [objSet_self htabs, objSet_self hnav]
  · intro fields navFields navigation hnav htabs
    unfold update_mint_json_build
    dsimp only
    rw [hnav]
    dsimp only
    rw [htabs]

theorem claim_C2_amended_witness :
    update_mint_json
        (Json.obj [("navigation", Json.arr [Json.obj
            [("group", Json.str "Home"), ("pages", Json.arr [Json.str "index"])]]),
          ("theme", Json.str "dark")])
        (Json.arr []) =
      some (Json.obj [("navigation", Json.arr [Json.obj
            [("group", Json.str "Home"), ("pages", Json.arr [Json.str "index"])]]),
          ("theme", Json.str "dark")]) := by
  refine claim_C2_amended.1 _ _ _ rfl ?_
  intro g hg
  simp only [List.mem_singleton] at hg
  exact ⟨[("group", Json.str "Home"), ("pages", Json.arr [Json.str "index"])],
    hg, rfl⟩

/-- C3 counterexample: with the identifier set
`{camel.agents.util.util, camel.agents.util.abc}` the directory page
`camel.agents.util.util` (pattern `a.b.b`, `storeSpec` confirms its
directory flag and that the builder prepends it) is rendered AFTER its
sibling `camel.agents.util.abc` in the final navigation, because the
renderer sorts sibling pages lexicographically; the claim says it renders
before all its siblings for every identifier set. -/
theorem claim_C3_counterexample :
    convert_tree_to_navigation (build_module_tree
        ["camel.agents.util.util", "camel.agents.util.abc"]) =
      [NavEntry.group "Agents"
        [NavEntry.page "reference/camel.agents.util.abc",
         NavEntry.page "reference/camel.agents.util.util"]] ∧
    "reference/camel.agents.util.abc" ≠ "reference/camel.agents.util.util" ∧
    storeSpec "camel.agents.util.util" =
      some (["agents", "util"], "reference/camel.agents.util.util", true) :=
  ⟨rfl, by decide, rfl⟩

/-- C3 amended: the tree builder inserts a directory page (pattern `a.b.b`)
at position 0 of its node's `ownPages`, ahead of all previously inserted
sibling pages, for every insertion order; the renderer, however, emits
sibling pages in lexicographic order of full path, discarding the builder's
positioning, so a directory page is rendered before its siblings only when
its path is lexicographically least among them (as in the spec's own
`{root.a.a, root.a.b}` example, but not in general). -/
theorem claim_C3_amended :
    (∀ (t : MTree) (stem : String) (segs : List String) (ref : String),
      storeSpec stem = some (segs, ref, true) →
      pagesAt (addFile t stem) segs = ref :: pagesAt t segs) ∧
    convert_tree_to_navigation (build_module_tree
        ["camel.agents.util.abc", "camel.agents.util.util"]) =
      [NavEntry.group "Agents"
        [NavEntry.page "reference/camel.agents.util.abc",
         NavEntry.page "reference/camel.agents.util.util"]] ∧
    convert_tree_to_navigation (build_module_tree
        ["camel.agents.agents", "camel.agents.base"]) =
      [NavEntry.group "Agents"
        [NavEntry.page "reference/camel.agents.agents",
         NavEntry.page "reference/camel.agents.base"]] := by
  refine ⟨?_, rfl, rfl⟩
  intro t stem segs ref h
  rw [pagesAt_addFile, h]
  dsimp only
  rw [if_pos rfl, if_pos rfl]

theorem claim_C3_amended_witness :
    pagesAt (addFile (build_module_tree ["camel.agents.util.abc"])
        "camel.agents.util.util") ["agents", "util"] =
      "reference/camel.agents.util.util" ::
        pagesAt (build_module_tree ["camel.agents.util.abc"])
          ["agents", "util"] :=
  claim_C3_amended.1 _ "camel.agents.util.util" _ _ rfl

/-- C4: for every built tree and category, the rendered group for that
category contains the category node's own pages followed by each grandchild
node's own pages appended into the same flat page list (grandchildren in
lexicographic segment order, pages in lexicographic path order —
`specGroupPages`), and neither renderer ever emits a group nested inside
another group (`GroupsFlat`). Proved for the renderers of both
`organize_modules.py` and `build_api_docs.py`. -/
theorem claim_C4 :
    (∀ (l : List String) (m : String) (sub : MTree),
      m ∈ MODULE_ORDER → m ≠ "camel" →
      lookupChild (build_module_tree l).children m = some sub →
      specGroupPages sub ≠ [] →
      NavEntry.group (get_module_display_name m)
          ((specGroupPages sub).map NavEntry.page) ∈
        convert_tree_to_navigation (build_module_tree l)) ∧
    (∀ (l : List String) (m : String) (sub : MTree),
      m ∈ MODULE_ORDER_build →
      lookupChild (build_module_tree l).children m = some sub →
      specGroupPages sub ≠ [] →
      NavEntry.group (get_module_display_name m)
          ((specGroupPages sub).map NavEntry.page) ∈
        convert_tree_to_navigation_build (build_module_tree l)) ∧
    (∀ (t : MTree), ∀ e ∈ convert_tree_to_navigation t, GroupsFlat e) ∧
    (∀ (t : MTree), ∀ e ∈ convert_tree_to_navigation_build t, GroupsFlat e) := by
  refine ⟨?_, ?_, convert_flat, convert_build_flat⟩
  · intro l m sub hmo hmc hl hne
    rw [convert_eq _ (build_children_nodup l)]
    refine List.mem_append.mpr (Or.inr ?_)
    refine List.mem_flatMap.mpr ⟨m, hmo, ?_⟩
    unfold convertCat
    rw [if_neg (by simp [hmc]), hl]
    dsimp only
    rw [if_neg hne]
    exact List.mem_singleton.mpr rfl
  · intro l m sub hmo hl hne
    rw [convert_build_eq _ (build_children_nodup l)]
    refine List.mem_append.mpr (Or.inr ?_)
    refine List.mem_flatMap.mpr ⟨m, hmo, ?_⟩
    unfold convertCat_build
    rw [hl]
    dsimp only
    rw [if_neg hne]
    exact List.mem_singleton.mpr rfl

theorem claim_C4_witness :
    ("agents" : String) ∈ MODULE_ORDER ∧
    NavEntry.group (get_module_display_name "agents")
        ((specGroupPages (MTree.node ["reference/camel.agents.base"]
          [("chat", MTree.node ["reference/camel.agents.chat.core"] [])])).map
          NavEntry.page) ∈
      convert_tree_to_navigation (build_module_tree
        ["camel.agents.base", "camel.agents.chat.core"]) := by
  constructor
  · decide
  · exact claim_C4.1 ["camel.agents.base", "camel.agents.chat.core"] "agents"
      (MTree.node ["reference/camel.agents.base"]
        [("chat", MTree.node ["reference/camel.agents.chat.core"] [])])
      (by decide) (by decide) rfl (by decide)

/-- C5: rendering is deterministic in the input identifier set — for every
two lists of identifiers that are permutations of one another (the same set
supplied in any iteration order), building the module tree and rendering it
produces identical navigation output. -/
theorem claim_C5 (l l' : List String) (hp : l.Perm l') :
    convert_tree_to_navigation (build_module_tree l) =
      convert_tree_to_navigation (build_module_tree l') :=
  convert_build_perm hp

theorem claim_C5_witness :
    convert_tree_to_navigation (build_module_tree
        ["camel.agents.base", "camel.toolkits.search", "camel.agents.agents"]) =
      convert_tree_to_navigation (build_module_tree
        ["camel.toolkits.search", "camel.agents.agents", "camel.agents.base"]) :=
  claim_C5 _ _ (by decide)

/-- C6: pruning drops a bare page entry iff its path is in the broken-page
set; a dropped page (at the top level of the pruned list) is recorded in
`removed`, everything recorded in `removed` is broken, and the surviving
entries keep exactly their original relative order (their skeletons form a
sublist of the input's skeletons — pruning never re-sorts). -/
theorem claim_C6 (broken : List String) (nav : List NavItem) :
    (∀ s, s ∈ broken → NavItem.page s ∉ (remove_from_groups broken nav).1) ∧
    (∀ s, NavItem.page s ∈ nav → s ∈ broken →
      s ∈ (remove_from_groups broken nav).2.1) ∧
    (∀ s, s ∉ broken →
      (NavItem.page s ∈ (remove_from_groups broken nav).1 ↔
        NavItem.page s ∈ nav)) ∧
    (∀ s, s ∈ (remove_from_groups broken nav).2.1 → s ∈ broken) ∧
    ((remove_from_groups broken nav).1.map NavItem.skeleton).Sublist
      (nav.map NavItem.skeleton) :=
  ⟨(remove_page_kept_iff broken nav).1,
   (remove_page_kept_iff broken nav).2.1,
   (remove_page_kept_iff broken nav).2.2,
   remove_removed_subset broken nav,
   remove_skeleton_sublist broken nav⟩

theorem claim_C6_witness :
    NavItem.page "p1" ∈
      (remove_from_groups ["p2"] [NavItem.page "p1", NavItem.page "p2"]).1 ∧
    "p2" ∈ (remove_from_groups ["p2"] [NavItem.page "p1", NavItem.page "p2"]).2.1 := by
  have h := claim_C6 ["p2"] [NavItem.page "p1", NavItem.page "p2"]
  exact ⟨(h.2.2.1 "p1" (by decide)).mpr (List.mem_cons_self _ _),
    h.2.1 "p2" (List.mem_cons_of_mem _ (List.mem_cons_self _ _))
      (List.mem_cons_self _ _)⟩

/-- C7 counterexample: a group whose `pages` list is empty but whose nested
`groups` list survives pruning is NOT dropped, contradicting "a group entry
is … dropped if and only if its resulting page list is empty". Here the
broken set is empty, the group `K` has an empty page list, and it survives
pruning intact. -/
theorem claim_C7_counterexample :
    (remove_from_groups []
        [NavItem.group (some "K") (some [])
          (some [NavItem.group (some "S") (some [NavItem.page "p"]) none])]).1 =
      [NavItem.group (some "K") (some [])
        (some [NavItem.group (some "S") (some [NavItem.page "p"]) none])] := by
  rw [remove_group_fst]
  simp only [Option.map, Option.elim]
  rw [remove_group_fst]
  simp only [Option.map, Option.elim]
  rw [remove_page_fst]
  simp [remove_nil, truthyList]

/-- C7 amended: a group entry is recursively pruned on both its `pages`
list and its nested `groups` list; it is kept iff at least one of the two
pruned lists is present and nonempty (so it is dropped iff both are empty
or absent — for groups without a nested `groups` field this is exactly
"dropped iff its page list is empty", and a group with at least one
surviving page is never dropped); every group surviving in the output has a
present, nonempty `pages` or `groups` list; and when a group is dropped its
name appears in the printed removal log. -/
theorem claim_C7_amended (broken : List String) (nav : List NavItem) :
    (∀ n ps gs, NavItem.group n ps gs ∈ nav →
      ((truthyList (ps.map (fun l => (remove_from_groups broken l).1)) ||
        truthyList (gs.map (fun l => (remove_from_groups broken l).1))) = true →
        NavItem.group n (ps.map (fun l => (remove_from_groups broken l).1))
            (gs.map (fun l => (remove_from_groups broken l).1)) ∈
          (remove_from_groups broken nav).1) ∧
      ((truthyList (ps.map (fun l => (remove_from_groups broken l).1)) ||
        truthyList (gs.map (fun l => (remove_from_groups broken l).1))) = false →
        ("  Removed empty group: " ++ n.getD "Unknown") ∈
          (remove_from_groups broken nav).2.2)) ∧
    (∀ n ps gs, NavItem.group n ps gs ∈ (remove_from_groups broken nav).1 →
      (truthyList ps || truthyList gs) = true) :=
  ⟨fun n ps gs hmem =>
    ⟨remove_group_kept broken nav n ps gs hmem,
     remove_group_dropped_log broken nav n ps gs hmem⟩,
   remove_survivor_groups_truthy broken nav⟩

theorem claim_C7_amended_witness :
    ("  Removed empty group: " ++ (some "G").getD "Unknown") ∈
      (remove_from_groups ["p"]
        [NavItem.group (some "G") (some [NavItem.page "p"]) none]).2.2 := by
  have h := claim_C7_amended ["p"]
    [NavItem.group (some "G") (some [NavItem.page "p"]) none]
  refine (h.1 (some "G") (some [NavItem.page "p"]) none
    (List.mem_cons_self _ _)).2 ?_
  simp only [Option.map]
  rw [show (remove_from_groups ["p"] [NavItem.page "p"]).1 = [] by
    rw [remove_page_fst]
    simp [remove_nil]]
  rfl

/-- C8: pruning is idempotent — applying the pruner a second time with the
same broken-page set to the output of the first pass returns that output
unchanged, with an empty `removed` list (and an empty log). -/
theorem claim_C8 (broken : List String) (nav : List NavItem) :
    remove_from_groups broken ((remove_from_groups broken nav).1) =
      ((remove_from_groups broken nav).1, [], []) :=
  remove_idem broken nav

/-- C9: merging a rendered navigation into a configuration document that
contains the addressed sub-structure changes only that sub-structure's page
list. For `organize_modules.py`: only the first `"API Reference"` group's
`"pages"` value changes — all other top-level keys keep their values and
their serialized order, the other navigation entries are passed through
untouched (string values, non-ASCII included, are preserved structurally),
and within the matched group every key other than `"pages"` keeps its value
and (when `"pages"` already existed) its position. The second conjunct
states the same for the `"API Reference"` tab's `"groups"` value in
`build_api_docs.py`. -/
theorem claim_C9 :
    (∀ (fields : List (String × Json)) (pre post : List Json)
        (gf : List (String × Json)) (navigation : Json),
      objGet fields "navigation" = some (Json.arr (pre ++ Json.obj gf :: post)) →
      (∀ g ∈ pre, ∃ f, g = Json.obj f ∧
        jsonIsStr (objGet f "group") "API Reference" = false) →
      jsonIsStr (objGet gf "group") "API Reference" = true →
      update_mint_json (Json.obj fields) navigation =
        some (Json.obj (objSet fields "navigation"
          (Json.arr (pre ++ Json.obj (objSet gf "pages" navigation) :: post)))) ∧
      (∀ k, k ≠ "navigation" →
        objGet (objSet fields "navigation"
          (Json.arr (pre ++ Json.obj (objSet gf "pages" navigation) :: post))) k =
          objGet fields k) ∧
      ((objSet fields "navigation"
          (Json.arr (pre ++ Json.obj (objSet gf "pages" navigation) :: post))).map
          Prod.fst = fields.map Prod.fst) ∧
      (∀ k, k ≠ "pages" →
        objGet (objSet gf "pages" navigation) k = objGet gf k) ∧
      ("pages" ∈ gf.map Prod.fst →
        (objSet gf "pages" navigation).map Prod.fst = gf.map Prod.fst)) ∧
    (∀ (fields navFields : List (String × Json)) (pre post : List Json)
        (tf : List (String × Json)) (navigation : Json),
      objGet fields "navigation" = some (Json.obj navFields) →
      objGet navFields "tabs" = some (Json.arr (pre ++ Json.obj tf :: post)) →
      (∀ tb ∈ pre, ∃ f, tb = Json.obj f ∧
        jsonIsStr (objGet f "tab") "API Reference" = false) →
      jsonIsStr (objGet tf "tab") "API Reference" = true →
      update_mint_json_build (Json.obj fields) navigation =
        some (Json.obj (objSet fields "navigation" (Json.obj (objSet navFields
          "tabs" (Json.arr (pre ++ Json.obj (objSet tf "groups" navigation) ::
            post)))))) ∧
      (∀ k, k ≠ "navigation" →
        objGet (objSet fields "navigation" (Json.obj (objSet navFields "tabs"
          (Json.arr (pre ++ Json.obj (objSet tf "groups" navigation) :: post)))))
          k = objGet fields k) ∧
      (∀ k, k ≠ "tabs" →
        objGet (objSet navFields "tabs"
          (Json.arr (pre ++ Json.obj (objSet tf "groups" navigation) :: post))) k =
          objGet navFields k) ∧
      (∀ k, k ≠ "groups" →
        objGet (objSet tf "groups" navigation) k = objGet tf k)) := by
  constructor
  · intro fields pre post gf navigation hnav hpre hm
    refine ⟨?_, ?_, ?_, ?_, ?_⟩
    · unfold update_mint_json
      dsimp only
      rw [hnav]
      dsimp only
      rw [setAPIRefPages_found pre gf post navigation hpre hm]
      rfl
    · intro k hk
      exact objGet_objSet_other fields "navigation" _ k hk
    · exact keys_objSet_mem fields "navigation" _ (objGet_mem_keys hnav)
    · intro k hk
      exact objGet_objSet_other gf "pages" navigation k hk
    · intro hmem
      exact keys_objSet_mem gf "pages" navigation hmem
  · intro fields navFields pre post tf navigation hnav htabs hpre hm
    refine ⟨?_, ?_, ?_, ?_⟩
    · unfold update_mint_json_build
      dsimp only
      rw [hnav]
      dsimp only
      rw [htabs]
      dsimp only
      rw [setAPIRefTabGroups_found pre tf post navigation hpre hm]
      rfl
    · intro k hk
      exact objGet_objSet_other fields "navigation" _ k hk
    · intro k hk
      exact objGet_objSet_other navFields "tabs" _ k hk
    · intro k hk
      exact objGet_objSet_other tf "groups" navigation k hk

theorem claim_C9_witness :
    update_mint_json
        (Json.obj [("name", Json.str "骆驼文档"),
          ("navigation", Json.arr
            [Json.obj [("group", Json.str "首页"),
               ("pages", Json.arr [Json.str "index"])],
             Json.obj [("group", Json.str "API Reference"),
               ("pages", Json.arr [Json.str "old"]), ("icon", Json.str "书")]]),
          ("footer", Json.str "页脚")])
        (Json.arr [Json.str "reference/camel.agents.base"]) =
      some (Json.obj [("name", Json.str "骆驼文档"),
        ("navigation", Json.arr
          [Json.obj [("group", Json.str "首页"),
             ("pages", Json.arr [Json.str "index"])],
           Json.obj [("group", Json.str "API Reference"),
             ("pages", Json.arr [Json.str "reference/camel.agents.base"]),
             ("icon", Json.str "书")]]),
        ("footer", Json.str "页脚")]) := by
  have h := (claim_C9.1
    [("name", Json.str "骆驼文档"),
     ("navigation", Json.arr
       [Json.obj [("group", Json.str "首页"),
          ("pages", Json.arr [Json.str "index"])],
        Json.obj [("group", Json.str "API Reference"),
          ("pages", Json.arr [Json.str "old"]), ("icon", Json.str "书")]]),
     ("footer", Json.str "页脚")]
    [Json.obj [("group", Json.str "首页"), ("pages", Json.arr [Json.str "index"])]]
    []
    [("group", Json.str "API Reference"), ("pages", Json.arr [Json.str "old"]),
     ("icon", Json.str "书")]
    (Json.arr [Json.str "reference/camel.agents.base"])
    rfl
    (fun g hg => by
      simp only [List.mem_singleton] at hg
      exact ⟨[("group", Json.str "首页"), ("pages", Json.arr [Json.str "index"])],
        hg, rfl⟩)
    rfl).1
  exact h

theorem camelHead_page_only (t : MTree) :
    ∀ e ∈ camelHead t, e = NavEntry.page "reference/camel" := by
  intro e he
  unfold camelHead at he
  split at he
  · simpa using he
  · cases he

/-- C10 (implicit behavior, confirmed): an identifier with five or more
dot-segments (e.g. `camel.a.b.c.d`) is stored by the tree builder at a node
three or more levels below the root, but both renderers read pages only
from category nodes (depth 1) and their immediate children (depth 2), so
such a page appears nowhere in the rendered navigation — neither as a
top-level entry nor inside any group — with no error or report. -/
theorem claim_C10 (l : List String) (id : String) (hmem : id ∈ l)
    (hstart : pyStartsWith id "camel." = true)
    (hlen : 5 ≤ (pySplit '.' id).length) :
    ("reference/" ++ id) ∈ pagesAt (build_module_tree l)
        (((pySplit '.' id).drop 1).dropLast) ∧
    3 ≤ (((pySplit '.' id).drop 1).dropLast).length ∧
    (∀ e ∈ convert_tree_to_navigation (build_module_tree l),
      e ≠ NavEntry.page ("reference/" ++ id) ∧
      ∀ dn ps, e = NavEntry.group dn ps →
        NavEntry.page ("reference/" ++ id) ∉ ps) ∧
    (∀ e ∈ convert_tree_to_navigation_build (build_module_tree l),
      e ≠ NavEntry.page ("reference/" ++ id) ∧
      ∀ dn ps, e = NavEntry.group dn ps →
        NavEntry.page ("reference/" ++ id) ∉ ps) := by
  have hstore := storeSpec_of_long hstart hlen
  have hcamel : id ≠ "camel" := by
    intro h
    subst h
    have : (pySplit '.' "camel").length = 1 := by decide
    omega
  have hnotpage : ∀ e : NavEntry,
      (e = NavEntry.page "reference/camel" ∨ ∃ dn ps, e = NavEntry.group dn ps) →
      e ≠ NavEntry.page ("reference/" ++ id) := by
    intro e htop heq
    rcases htop with h1 | ⟨dn, ps, h2⟩
    · rw [heq] at h1
      have := NavEntry.page.inj h1
      exact hcamel (ref_inj this.symm).symm
    · rw [heq] at h2
      cases h2
  refine ⟨?_, segs_length_of_long hlen, ?_, ?_⟩
  · exact ref_mem_foldl l emptyNode hmem hstore
  · intro e he
    refine ⟨hnotpage e (convert_top _ e he), ?_⟩
    intro dn ps hge hx
    rw [convert_eq _ (build_children_nodup l)] at he
    rcases List.mem_append.mp he with hc | hf
    · have h1 := camelHead_page_only _ e hc
      rw [hge] at h1
      cases h1
    · obtain ⟨m, -, hcat⟩ := List.mem_flatMap.mp hf
      obtain ⟨r, hxr, hsrc⟩ := convertCat_pages_src _ m hcat dn ps hge _ hx
      have hrid : r = "reference/" ++ id := NavEntry.page.inj hxr.symm
      subst hrid
      rcases hsrc with h1 | ⟨k, h2⟩
      · exact long_ref_not_at_shallow l hlen [m] (by simp) h1
      · exact long_ref_not_at_shallow l hlen [m, k] (by simp) h2
  · intro e he
    refine ⟨hnotpage e (convert_build_top _ e he), ?_⟩
    intro dn ps hge hx
    rw [convert_build_eq _ (build_children_nodup l)] at he
    rcases List.mem_append.mp he with hc | hf
    · have h1 := camelHead_page_only _ e hc
      rw [hge] at h1
      cases h1
    · obtain ⟨m, -, hcat⟩ := List.mem_flatMap.mp hf
      obtain ⟨r, hxr, hsrc⟩ := convertCat_build_pages_src _ m hcat dn ps hge _ hx
      have hrid : r = "reference/" ++ id := NavEntry.page.inj hxr.symm
      subst hrid
      rcases hsrc with h1 | ⟨k, h2⟩
      · exact long_ref_not_at_shallow l hlen [m] (by simp) h1
      · exact long_ref_not_at_shallow l hlen [m, k] (by simp) h2

theorem claim_C10_witness :
    ("camel.agents.a.b.core" ∈ ["camel.agents.a.b.core"] ∧
      pyStartsWith "camel.agents.a.b.core" "camel." = true ∧
      5 ≤ (pySplit '.' "camel.agents.a.b.core").length) ∧
    ("reference/camel.agents.a.b.core") ∈
      pagesAt (build_module_tree ["camel.agents.a.b.core"])
        (((pySplit '.' "camel.agents.a.b.core").drop 1).dropLast) := by
  refine ⟨⟨List.mem_cons_self _ _, by decide, by decide⟩, ?_⟩
  exact (claim_C10 ["camel.agents.a.b.core"] "camel.agents.a.b.core"
    (List.mem_cons_self _ _) (by decide) (by decide)).1
